import Mathlib

/-!
Verification of the offline-first synchronization core of the
fale-com-a-dinda app (Ionic/Angular, TypeScript).

The embedding translates the TypeScript sources:
  src/app/models/local.models.ts   (SyncStatus, BaseLocalModel, helpers)
  src/app/services/storage.ts      (StorageService: collections, sync queue)
  src/app/services/medicamento.ts  (MedicamentoService)
  src/app/services/faq.ts          (FaqService)
  src/app/services/sync.ts         (SyncService, MinistraService variants)

Modelling conventions:
  - ISO timestamp strings are modelled as natural numbers; the source only
    compares them through new Date(s).getTime().
  - A JS Record<string, T> is an insertion-ordered map with unique keys; it
    is modelled as an association list (Coll) whose well-formedness
    (collWF: no duplicate keys) is exactly what JS objects guarantee.
  - Every call to now() and generateUUID() becomes an explicit parameter;
    fresh-uuid parameters for merge routines are keyed by the server id of
    the materialized record, with explicit freshness hypotheses.
  - Dynamic any-typed payloads (queue entry data, HTTP responses) are
    modelled as association lists of JVal, with JS truthiness made explicit.
  - async/await effects are modelled by explicit state passing; thrown
    exceptions become Except / Option results.
-/

namespace Dinda

/-! ## JS dynamic values (for any-typed payloads and HTTP responses) -/

/-- A JS value as it appears in any-typed payloads: undefined, null,
number, string or boolean. -/
inductive JVal where
  | jundefined : JVal
  | jnull : JVal
  | jnum : Int → JVal
  | jstr : String → JVal
  | jbool : Bool → JVal
deriving DecidableEq, Repr

/-- JS truthiness of a value. -/
def JVal.truthy : JVal → Bool
  | .jundefined => false
  | .jnull => false
  | .jnum n => n ≠ 0
  | .jstr s => s ≠ ""
  | .jbool b => b

/-- JS a || b. -/
def jsOr (a b : JVal) : JVal := if a.truthy then a else b

/-- A JS object literal used as an untyped payload. -/
abbrev JObj := List (String × JVal)

/-- JS property access obj.k : undefined when the key is absent. -/
def jsGet (o : JObj) (k : String) : JVal :=
  match o.find? (fun p => p.1 = k) with
  | some p => p.2
  | none => .jundefined

/-- JS `k in obj` key-membership test. -/
def jsHasKey (o : JObj) (k : String) : Bool := o.any (fun p => p.1 = k)

/-! ## Collections: JS Record<string, T> as insertion-ordered association lists
(StorageService collection helpers, storage.ts) -/

/-- A stored collection: key (record uuid) to record, in insertion order. -/
abbrev Coll (α : Type) := List (String × α)

/-- collection[itemId] (getFromCollection): the binding of the key. -/
def collGet {α : Type} : Coll α → String → Option α
  | [], _ => none
  | p :: rest, k => if p.1 = k then some p.2 else collGet rest k

/-- collection[itemId] = item (setInCollection): overwrite in place when
the key exists (JS objects keep the original insertion position), else
append at the end. A JS object never holds a duplicate key, so replacing
the first occurrence is replacing the occurrence. -/
def collSet {α : Type} : Coll α → String → α → Coll α
  | [], k, v => [(k, v)]
  | p :: rest, k, v => if p.1 = k then (k, v) :: rest else p :: collSet rest k v

/-- delete collection[itemId] (removeFromCollection). -/
def collRemove {α : Type} (c : Coll α) (k : String) : Coll α :=
  c.filter (fun p => p.1 ≠ k)

/-- Object.values(collection) (getCollectionAsArray): insertion order. -/
def collValues {α : Type} (c : Coll α) : List α := c.map (fun p => p.2)

/-- Well-formedness guaranteed by JS objects: keys are unique. -/
abbrev collWF {α : Type} (c : Coll α) : Prop := (c.map (fun p => p.1)).Nodup

/-- Keys of a collection. -/
def collKeys {α : Type} (c : Coll α) : List String := c.map (fun p => p.1)

/-- Keyed consistency: every stored record carries its own collection key
(its uuid) — true of every state the services build, since records are
always stored under their uuid. -/
abbrev collKeyed {α : Type} (key : α → String) (c : Coll α) : Prop :=
  ∀ p ∈ c, key p.2 = p.1

/-! ## Sync status and base-model helpers (local.models.ts) -/

/-- SyncStatus enumeration. -/
inductive SyncStatus where
  | synced
  | pendingCreate
  | pendingUpdate
  | pendingDelete
  | conflict
deriving DecidableEq, Repr

/-- JS truthiness of a nullable numeric serverId: `if (m.serverId)` is
false for null/undefined and for 0. -/
def sidTruthy : Option Int → Bool
  | none => false
  | some n => n ≠ 0

/-- JS `s || null` on an optional string field: an empty string is falsy. -/
def strOrNull : Option String → Option String
  | none => none
  | some s => if s = "" then none else some s

/-! ## Entity records (local.models.ts)

MedicamentoLocal, FaqLocal and MinistraLocal extend BaseLocalModel.
Timestamps are Nat; nullable/optional fields are Option; the optional
deletedLocally flag is Bool (undefined is falsy). -/

/-- MedicamentoLocal. -/
structure Med where
  uuid : String
  serverId : Option Int
  syncStatus : SyncStatus
  createdAt : Nat
  updatedAt : Nat
  syncedAt : Option Nat
  serverUpdatedAt : Option Nat
  deviceId : Option String := none
  deletedLocally : Bool := false
  nome : String
  descricao : String
  classe : String
  farmaceutico_uuid : Option String
  farmaceutico_nome : Option String := none
  farmaceutico_crf : Option String := none
deriving DecidableEq, Repr

/-- FaqLocal. -/
structure Faq where
  uuid : String
  serverId : Option Int
  syncStatus : SyncStatus
  createdAt : Nat
  updatedAt : Nat
  syncedAt : Option Nat
  serverUpdatedAt : Option Nat
  deviceId : Option String := none
  deletedLocally : Bool := false
  pergunta : String
  resposta : String
  farmaceutico_uuid : String
  farmaceutico_nome : Option String := none
  farmaceutico_crf : Option String := none
  visualizacoes : Option Nat := none
  util : Option Bool := none
deriving DecidableEq, Repr

/-- MinistraLocal. -/
structure Ministra where
  uuid : String
  serverId : Option Int
  syncStatus : SyncStatus
  createdAt : Nat
  updatedAt : Nat
  syncedAt : Option Nat
  serverUpdatedAt : Option Nat
  deviceId : Option String := none
  deletedLocally : Bool := false
  cliente_uuid : String
  medicamento_uuid : String
  horario : Option String
  dosagem : Option String
  frequencia : Option Int
  status : Int
  medicamento_nome : Option String := none
  medicamento_descricao : Option String := none
  medicamento_classe : Option String := none
  ultimaTomada : Option Nat := none
  proximaTomada : Option Nat := none
deriving DecidableEq, Repr

/-- markAsDeleted (local.models.ts): soft-delete marker. -/
def markAsDeleted (m : Med) (t : Nat) : Med :=
  { m with syncStatus := .pendingDelete, deletedLocally := true, updatedAt := t }

/-- markAsSynced (local.models.ts). The serverId parameter is declared as a
number in the source, but SyncService.syncCreate passes the possibly
undefined result of a || chain over the response, so the stored value is
modelled as the converted Option Int. serverUpdatedAt falls back on now()
when no server timestamp is given (the || in the source). -/
def markAsSynced (m : Med) (serverId : Option Int) (t : Nat)
    (serverUpdatedAt : Option Nat := none) : Med :=
  { m with
    serverId := serverId
    syncStatus := .synced
    syncedAt := some t
    serverUpdatedAt := some (serverUpdatedAt.getD t) }

/-! ## Mutation queue (storage.ts) -/

/-- Queue entry operation. -/
inductive Op where
  | create
  | update
  | delete
deriving DecidableEq, Repr

/-- SyncQueueItem (storage.ts). data is the any-typed payload (null for
deletes). -/
structure SyncQueueItem where
  id : String
  entity : String
  uuid : String
  operation : Op
  data : Option JObj
  timestamp : Nat
  retries : Nat
  maxRetries : Nat
  lastError : Option String := none
deriving DecidableEq, Repr

namespace StorageService

/-- addToSyncQueue: queue.push(item) then persist — append at the tail. -/
def addToSyncQueue (queue : List SyncQueueItem) (item : SyncQueueItem) :
    List SyncQueueItem :=
  queue ++ [item]

/-- removeFromSyncQueue: queue.filter(item => item.id !== itemId). -/
def removeFromSyncQueue (queue : List SyncQueueItem) (itemId : String) :
    List SyncQueueItem :=
  queue.filter (fun item => item.id ≠ itemId)

/-- cleanInvalidMinistraQueue (storage.ts): drops ministra create entries
whose payload carries medicamento_uuid but no medicamento_idmedicamento;
the truthiness test `item.data && ...` keeps entries with a null payload. -/
def cleanInvalidMinistraQueue (queue : List SyncQueueItem) :
    List SyncQueueItem :=
  queue.filter (fun item =>
    if item.entity = "ministra" ∧ item.operation = .create then
      match item.data with
      | some d =>
          if jsHasKey d "medicamento_uuid" ∧ ¬ jsHasKey d "medicamento_idmedicamento"
          then false else true
      | none => true
    else true)

end StorageService

/-! ## MedicamentoService (medicamento.ts) -/

/-- CriarMedicamentoLocalDTO. -/
structure CriarMedicamentoLocalDTO where
  nome : String
  descricao : String
  classe : String
  farmaceutico_uuid : Option String := none
deriving DecidableEq, Repr

/-- A remote medicamento record as returned by GET /medicamento.
updatedAt is optional; `api.updatedAt || api.createdAt` is its fallback. -/
structure ApiMed where
  idmedicamento : Int
  nome : String
  descricao : String
  classe : String
  createdAt : Nat
  updatedAt : Option Nat := none
  farmaceutico_nome : Option String := none
  farmaceutico_crf : Option String := none
deriving DecidableEq, Repr

/-- api.updatedAt || api.createdAt. -/
def ApiMed.ts (a : ApiMed) : Nat := a.updatedAt.getD a.createdAt

namespace MedicamentoService

/-- The medicamento slice of app state: the stored collection, the shared
mutation queue and the published BehaviorSubject value (the live view). -/
structure St where
  meds : Coll Med
  queue : List SyncQueueItem
  subject : List Med
deriving DecidableEq, Repr

/-- carregarMedicamentos: republish the collection view, filtering records
soft-deleted locally. -/
def carregarMedicamentos (meds : Coll Med) : List Med :=
  (collValues meds).filter (fun m => ¬ m.deletedLocally)

/-- buscarPorUuid: direct storage lookup (not filtered). -/
def buscarPorUuid (meds : Coll Med) (uuid : String) : Option Med :=
  collGet meds uuid

/-- criar (medicamento.ts): build the local record via createBaseModel
(PENDING_CREATE, serverId null), persist it, enqueue one create mutation
carrying the remote-shaped fields, republish the view. uuid and qid stand
for the two generateUUID() calls, t for now(). -/
def criar (dto : CriarMedicamentoLocalDTO) (uuid qid : String) (t : Nat)
    (st : St) : St × Med :=
  let medicamento : Med :=
    { uuid := uuid
      serverId := none
      syncStatus := .pendingCreate
      createdAt := t
      updatedAt := t
      syncedAt := none
      serverUpdatedAt := none
      nome := dto.nome
      descricao := dto.descricao
      classe := dto.classe
      farmaceutico_uuid := strOrNull dto.farmaceutico_uuid }
  let entry : SyncQueueItem :=
    { id := qid
      entity := "medicamento"
      uuid := uuid
      operation := .create
      data := some [("nome", .jstr dto.nome), ("descricao", .jstr dto.descricao),
                    ("classe", .jstr dto.classe)]
      timestamp := t
      retries := 0
      maxRetries := 3 }
  let meds := collSet st.meds uuid medicamento
  ({ meds := meds
     queue := StorageService.addToSyncQueue st.queue entry
     subject := carregarMedicamentos meds }, medicamento)

/-- deletar (medicamento.ts): soft delete, then either enqueue a delete
mutation (record was synced: truthy serverId) or purge immediately. -/
def deletar (uuid qid : String) (t : Nat) (st : St) : St × Bool :=
  match collGet st.meds uuid with
  | none => (st, false)
  | some medicamento =>
      let deletado := markAsDeleted medicamento t
      let meds1 := collSet st.meds uuid deletado
      if sidTruthy medicamento.serverId then
        let entry : SyncQueueItem :=
          { id := qid
            entity := "medicamento"
            uuid := medicamento.uuid
            operation := .delete
            data := none
            timestamp := t
            retries := 0
            maxRetries := 3 }
        ({ meds := meds1
           queue := StorageService.addToSyncQueue st.queue entry
           subject := carregarMedicamentos meds1 }, true)
      else
        let meds2 := collRemove meds1 uuid
        ({ meds := meds2
           queue := st.queue
           subject := carregarMedicamentos meds2 }, true)

/-- The loop's lookup: the (first) local record already carrying the
remote serverId, over the whole stored collection. -/
def findByServerId (meds : Coll Med) (i : Int) : Option Med :=
  (collValues meds).find? (fun m => m.serverId = some i)

/-- The overwrite applied when the server copy wins: domain fields and the
sync bookkeeping; uuid, serverId, syncStatus, createdAt, updatedAt and the
farmaceutico fields are untouched. -/
def atualizadoMed (apiMed : ApiMed) (t : Nat) (existente : Med) : Med :=
  { existente with
    nome := apiMed.nome
    descricao := apiMed.descricao
    classe := apiMed.classe
    serverUpdatedAt := some apiMed.ts
    syncedAt := some t }

/-- The record materialized for a remote medicamento with no local
counterpart: createBaseModel(generateUUID(), SYNCED) plus the server
fields. uuidFor and farmFor stand for the two generateUUID() calls,
keyed by the remote id. -/
def novoMedLocal (uuidFor farmFor : Int → String) (t : Nat) (apiMed : ApiMed) :
    Med :=
  { uuid := uuidFor apiMed.idmedicamento
    serverId := some apiMed.idmedicamento
    syncStatus := .synced
    createdAt := t
    updatedAt := t
    syncedAt := some t
    serverUpdatedAt := some apiMed.ts
    nome := apiMed.nome
    descricao := apiMed.descricao
    classe := apiMed.classe
    farmaceutico_uuid := some (farmFor apiMed.idmedicamento)
    farmaceutico_nome := apiMed.farmaceutico_nome
    farmaceutico_crf := apiMed.farmaceutico_crf }

/-- One iteration of the mesclarDoServidor loop: locate the local record
carrying the remote serverId; overwrite it only when the remote timestamp
is strictly newer than the local updatedAt AND the record is SYNCED;
materialize a new SYNCED record when there is no local counterpart. -/
def mesclarStep (uuidFor farmFor : Int → String) (t : Nat)
    (meds : Coll Med) (apiMed : ApiMed) : Coll Med :=
  match findByServerId meds apiMed.idmedicamento with
  | some existente =>
      if apiMed.ts > existente.updatedAt ∧ existente.syncStatus = .synced then
        collSet meds existente.uuid (atualizadoMed apiMed t existente)
      else meds
  | none =>
      let novoLocal := novoMedLocal uuidFor farmFor t apiMed
      collSet meds novoLocal.uuid novoLocal

/-- mesclarDoServidor (medicamento.ts): fold the loop over the remote
snapshot; the read-modify-write over the whole collection ends with
setCollection of the accumulated map. -/
def mesclarDoServidor (uuidFor farmFor : Int → String) (t : Nat)
    (snapshot : List ApiMed) (meds : Coll Med) : Coll Med :=
  snapshot.foldl (mesclarStep uuidFor farmFor t) meds

end MedicamentoService

/-! ## FaqService (faq.ts) -/

/-- A remote FAQ record as returned by the API. -/
structure ApiFaq where
  idfaq : Int
  pergunta : String
  resposta : String
  createdAt : Nat
  updatedAt : Option Nat := none
  farmaceutico_nome : Option String := none
  farmaceutico_crf : Option String := none
deriving DecidableEq, Repr

/-- api.updatedAt || api.createdAt. -/
def ApiFaq.ts (a : ApiFaq) : Nat := a.updatedAt.getD a.createdAt

/-- faqApiToLocal (local.models.ts): spread the existing local record (or a
fresh createBaseModel) and overwrite with the server fields; SYNCED.
newUuid and newFarm stand for the generateUUID() calls used when no
existing record (resp. no truthy farmaceutico_uuid) is available. -/
def faqApiToLocal (newUuid newFarm : String) (t : Nat) (api : ApiFaq)
    (existingLocal : Option Faq) : Faq :=
  let base : Faq :=
    match existingLocal with
    | some e => e
    | none =>
        { uuid := newUuid
          serverId := none
          syncStatus := .pendingCreate
          createdAt := t
          updatedAt := t
          syncedAt := none
          serverUpdatedAt := none
          pergunta := ""
          resposta := ""
          farmaceutico_uuid := "" }
  { base with
    serverId := some api.idfaq
    pergunta := api.pergunta
    resposta := api.resposta
    farmaceutico_uuid :=
      match existingLocal with
      | some e => if e.farmaceutico_uuid = "" then newFarm else e.farmaceutico_uuid
      | none => newFarm
    syncStatus := .synced
    syncedAt := some t
    serverUpdatedAt := some api.ts
    farmaceutico_nome := api.farmaceutico_nome
    farmaceutico_crf := api.farmaceutico_crf }

namespace FaqService

/-- carregarFaqs: the published view filters locally deleted records. -/
def carregarFaqs (faqs : Coll Faq) : List Faq :=
  (collValues faqs).filter (fun f => ¬ f.deletedLocally)

/-- The Map serverId → faq built once from listar() in mesclarDoServidor:
over the published (not-deleted) view, a later duplicate key overwrites an
earlier one, hence the reversed find. -/
def mapAtuais (faqs : Coll Faq) (i : Int) : Option Faq :=
  (carregarFaqs faqs).reverse.find? (fun f => f.serverId = some i)

/-- The record one loop iteration of mesclarDoServidor writes: faqApiToLocal
over the lookup in the pre-loop map (built from the original collection). -/
def faqUpd (uuidFor farmFor : Int → String) (t : Nat) (faqs : Coll Faq)
    (apiFaq : ApiFaq) : Faq :=
  faqApiToLocal (uuidFor apiFaq.idfaq) (farmFor apiFaq.idfaq) t apiFaq
    (mapAtuais faqs apiFaq.idfaq)

/-- mesclarDoServidor (faq.ts): each remote record is folded into the
collection via faqApiToLocal, unconditionally (no timestamp or syncStatus
guard). -/
def mesclarDoServidor (uuidFor farmFor : Int → String) (t : Nat)
    (apiResponse : List ApiFaq) (faqs : Coll Faq) : Coll Faq :=
  apiResponse.foldl
    (fun acc apiFaq =>
      let updated := faqUpd uuidFor farmFor t faqs apiFaq
      collSet acc updated.uuid updated)
    faqs

/-- The outcome of the POST /faq call in criarOnline: a successful server
response, or an HTTP error with its status (status 0 is the offline case)
and optional error.erro body. -/
inductive HttpPostFaq where
  | ok (idfaq : Int) (pergunta resposta : String)
  | httpError (status : Int) (erro : Option String)
deriving DecidableEq, Repr

/-- User type, from getCurrentUser().tipo_usuario. -/
inductive TipoUsuario where
  | cliente
  | farmaceutico
deriving DecidableEq, Repr

/-- criar / criarOnline (faq.ts) as one state transformer: FARMACEUTICO
users POST the dto directly (online-only); on success the returned FAQ is
stored already SYNCED with the server id and no mutation-queue entry is
involved; an offline error (status 0) becomes the explicit no-connection
failure. uuid stands for the createBaseModel uuid, t for now(), token for
getAccessToken(), net for the HTTP outcome. -/
def criar (user : Option TipoUsuario)
    (_dto_pergunta _dto_resposta : String) (dto_farmaceutico_uuid : Option String)
    (token : Option String) (net : HttpPostFaq) (uuid : String) (t : Nat)
    (faqs : Coll Faq) : Except String (Coll Faq × Faq) :=
  if user = some .farmaceutico then
    match token with
    | none => .error "Não autenticado"
    | some _ =>
        match net with
        | .httpError status erro =>
            if status = 0 then
              .error "Sem conexão. Não foi possível criar a FAQ."
            else
              .error (erro.getD "Erro ao criar FAQ.")
        | .ok idfaq pergunta resposta =>
            let faq : Faq :=
              { uuid := uuid
                serverId := some idfaq
                syncStatus := .synced
                createdAt := t
                updatedAt := t
                syncedAt := some t
                serverUpdatedAt := none
                pergunta := pergunta
                resposta := resposta
                farmaceutico_uuid := dto_farmaceutico_uuid.getD "" }
            .ok (collSet faqs faq.uuid faq, faq)
  else .error "Apenas farmacêuticos podem criar FAQs"

end FaqService

/-! ## MinistraService (sync.ts holds two variants of this service) -/

/-- CriarMinistraLocalDTO. -/
structure CriarMinistraLocalDTO where
  medicamento_uuid : String
  horario : Option String := none
  dosagem : Option String := none
  frequencia : Option Int := none
  status : Option Int := none
deriving DecidableEq, Repr

namespace MinistraService

/-- The ministra slice of app state: the stored collection and the shared
mutation queue (the published subject is omitted here; no claim reads it). -/
structure St where
  ministra : Coll Ministra
  queue : List SyncQueueItem
deriving DecidableEq, Repr

/-- `dto.status !== undefined ? dto.status : 1`: an explicit undefined
check, not truthiness — status 0 is kept. -/
def statusOrDefault (s : Option Int) : Int := s.getD 1

/-- criar, first variant (sync.ts, the service injected with
MedicamentoService): requires a cliente uuid, loads the referenced
medicamento for denormalization, rejects when it is absent or has no
truthy serverId, and only then persists the record and enqueues a create
mutation whose payload carries medicamento_idmedicamento. -/
def criarV1 (dto : CriarMinistraLocalDTO) (cliente_uuid : String)
    (uuid qid : String) (t : Nat) (meds : Coll Med) (st : St) :
    Except String (St × Ministra) :=
  if cliente_uuid = "" then
    .error "UUID do cliente é necessário para criar ministração"
  else
    match MedicamentoService.buscarPorUuid meds dto.medicamento_uuid with
    | none => .error "Medicamento não encontrado"
    | some medicamento =>
        if ¬ sidTruthy medicamento.serverId then
          .error "Aguarde a sincronização do medicamento antes de adicioná-lo à sua lista"
        else
          let ministra : Ministra :=
            { uuid := uuid
              serverId := none
              syncStatus := .pendingCreate
              createdAt := t
              updatedAt := t
              syncedAt := none
              serverUpdatedAt := none
              cliente_uuid := cliente_uuid
              medicamento_uuid := dto.medicamento_uuid
              horario := strOrNull dto.horario
              dosagem := strOrNull dto.dosagem
              frequencia := match dto.frequencia with
                | some n => if n = 0 then none else some n
                | none => none
              status := statusOrDefault dto.status
              medicamento_nome := some medicamento.nome
              medicamento_descricao := some medicamento.descricao
              medicamento_classe := some medicamento.classe }
          let syncData : JObj :=
            [("medicamento_idmedicamento",
                match medicamento.serverId with
                | some n => .jnum n
                | none => .jnull),
             ("horario", match ministra.horario with
                | some s => .jstr s
                | none => .jnull),
             ("dosagem", match ministra.dosagem with
                | some s => .jstr s
                | none => .jnull),
             ("frequencia", match ministra.frequencia with
                | some n => .jnum n
                | none => .jnull),
             ("status", .jnum ministra.status)]
          let entry : SyncQueueItem :=
            { id := qid
              entity := "ministra"
              uuid := ministra.uuid
              operation := .create
              data := some syncData
              timestamp := t
              retries := 0
              maxRetries := 3 }
          .ok ({ ministra := collSet st.ministra ministra.uuid ministra
                 queue := StorageService.addToSyncQueue st.queue entry }, ministra)

/-- criar, second variant (sync.ts, the service without MedicamentoService):
no medicamento lookup at all — the record is persisted and a create
mutation is enqueued whose payload still carries the local
medicamento_uuid (left for the SyncService to convert). -/
def criarV2 (dto : CriarMinistraLocalDTO) (cliente_uuid : String)
    (uuid qid : String) (t : Nat) (st : St) :
    Except String (St × Ministra) :=
  if cliente_uuid = "" then
    .error "UUID do cliente é necessário para criar ministração"
  else
    let ministra : Ministra :=
      { uuid := uuid
        serverId := none
        syncStatus := .pendingCreate
        createdAt := t
        updatedAt := t
        syncedAt := none
        serverUpdatedAt := none
        cliente_uuid := cliente_uuid
        medicamento_uuid := dto.medicamento_uuid
        horario := strOrNull dto.horario
        dosagem := strOrNull dto.dosagem
        frequencia := match dto.frequencia with
          | some n => if n = 0 then none else some n
          | none => none
        status := statusOrDefault dto.status }
    let entry : SyncQueueItem :=
      { id := qid
        entity := "ministra"
        uuid := ministra.uuid
        operation := .create
        data := some
          [("medicamento_uuid", .jstr ministra.medicamento_uuid),
           ("horario", match ministra.horario with
              | some s => .jstr s
              | none => .jnull),
           ("dosagem", match ministra.dosagem with
              | some s => .jstr s
              | none => .jnull),
           ("frequencia", match ministra.frequencia with
              | some n => .jnum n
              | none => .jnull),
           ("status", .jnum ministra.status)]
        timestamp := t
        retries := 0
        maxRetries := 3 }
    .ok ({ ministra := collSet st.ministra ministra.uuid ministra
           queue := StorageService.addToSyncQueue st.queue entry }, ministra)

/-- The state a criar variant leaves behind: unchanged when it throws. -/
def criarV1Run (dto : CriarMinistraLocalDTO) (cliente_uuid : String)
    (uuid qid : String) (t : Nat) (meds : Coll Med) (st : St) : St :=
  match criarV1 dto cliente_uuid uuid qid t meds st with
  | .ok (st', _) => st'
  | .error _ => st

end MinistraService

/-! ## SyncService upload phase (sync.ts) -/

namespace SyncService

/-- The server-id extraction in syncCreate:
`response.id || response.idfaq || response.iddica`. Note the chain has no
case for idmedicamento (or idministra). -/
def respServerId (response : JObj) : JVal :=
  jsOr (jsGet response "id") (jsOr (jsGet response "idfaq") (jsGet response "iddica"))

/-- The JS value handed to markAsSynced, converted to the nullable numeric
serverId field (undefined/null and non-numeric values store as null). -/
def jvalToServerId : JVal → Option Int
  | .jnum n => some n
  | _ => none

/-- The remote collaborator for one upload pass: for each queue entry,
either the parsed body of a 2xx response, or none for a thrown
request error (network failure, timeout, non-2xx). -/
abbrev Remote := SyncQueueItem → Option JObj

/-- syncCreate (sync.ts), specialized to the medicamento collection: POST
the payload, then mark the local record as synced with the id extracted
from the response. -/
def syncCreate (meds : Coll Med) (uuid : String) (response : JObj) (t : Nat) :
    Coll Med :=
  match collGet meds uuid with
  | none => meds
  | some localItem =>
      collSet meds uuid
        (markAsSynced localItem (jvalToServerId (respServerId response)) t)

/-- One iteration of the uploadPendingChanges loop over the queue snapshot
(sync.ts lines 220-234). Success: apply the entry and remove it from the
durable queue. Exception: increment retries on the in-memory copy only
(the increment is never written back to the durable queue) and drop the
entry only when that incremented count already reaches maxRetries.
syncUpdate throws before the request when the local record is absent or
its serverId is not truthy; syncDelete without a truthy serverId removes
the record locally without a request. -/
def uploadStep (remote : Remote) (t : Nat)
    (st : MedicamentoService.St) (item : SyncQueueItem) : MedicamentoService.St :=
  let attempt : Option (Coll Med) :=
    match item.operation with
    | .create =>
        (remote item).map (fun response => syncCreate st.meds item.uuid response t)
    | .update =>
        match collGet st.meds item.uuid with
        | none => none
        | some localItem =>
            if sidTruthy localItem.serverId then
              (remote item).map (fun _ =>
                collSet st.meds item.uuid
                  (markAsSynced localItem localItem.serverId t))
            else none
    | .delete =>
        match collGet st.meds item.uuid with
        | none => some (collRemove st.meds item.uuid)
        | some localItem =>
            if sidTruthy localItem.serverId then
              (remote item).map (fun _ => collRemove st.meds item.uuid)
            else some (collRemove st.meds item.uuid)
  match attempt with
  | some meds' =>
      { st with
        meds := meds'
        queue := StorageService.removeFromSyncQueue st.queue item.id }
  | none =>
      if item.retries + 1 ≥ item.maxRetries then
        { st with queue := StorageService.removeFromSyncQueue st.queue item.id }
      else st

/-- uploadPendingChanges with its dispatch log: the queue is read once and
iterated in order; the log records each entry as it is handed to
processSyncQueueItem. -/
def uploadRun (remote : Remote) (t : Nat) (st : MedicamentoService.St) :
    MedicamentoService.St × List SyncQueueItem :=
  st.queue.foldl
    (fun acc item => (uploadStep remote t acc.1 item, acc.2 ++ [item]))
    (st, [])

/-- uploadPendingChanges (sync.ts): the state left behind by one upload
pass. -/
def uploadPendingChanges (remote : Remote) (t : Nat)
    (st : MedicamentoService.St) : MedicamentoService.St :=
  (uploadRun remote t st).1

end SyncService

/-! ## Claim-shaped predicates -/

/-- The identity invariant of the spec: serverId == null implies
syncStatus != SYNCED. -/
def identityInvariant (m : Med) : Prop :=
  m.serverId = none → m.syncStatus ≠ .synced

/-- The invalidity condition exactly as the sanitization claim words it:
entity 'ministra', operation 'create', and a payload containing a
medicamento_uuid field but no medicamento_idmedicamento field. -/
def claimInvalidMinistra (item : SyncQueueItem) : Bool :=
  item.entity = "ministra" && item.operation == .create &&
    (match item.data with
     | some d => jsHasKey d "medicamento_uuid" && !jsHasKey d "medicamento_idmedicamento"
     | none => false)

/-! ## Concrete scenario inputs -/

/-- A medication created locally offline (createBaseModel defaults):
syncStatus PENDING_CREATE, serverId null. -/
def dipirona : Med :=
  { uuid := "med-uuid-1"
    serverId := none
    syncStatus := .pendingCreate
    createdAt := 10
    updatedAt := 10
    syncedAt := none
    serverUpdatedAt := none
    nome := "Dipirona 500mg"
    descricao := "Analgésico"
    classe := "Analgésico"
    farmaceutico_uuid := none }

/-- The queue entry its criar call enqueued. -/
def dipironaEntry : SyncQueueItem :=
  { id := "q-1"
    entity := "medicamento"
    uuid := "med-uuid-1"
    operation := .create
    data := some [("nome", .jstr "Dipirona 500mg"), ("descricao", .jstr "Analgésico"),
                  ("classe", .jstr "Analgésico")]
    timestamp := 10
    retries := 0
    maxRetries := 3 }

/-- The app state right after the offline create, before syncAll. -/
def dipironaSt : MedicamentoService.St :=
  { meds := [("med-uuid-1", dipirona)]
    queue := [dipironaEntry]
    subject := [dipirona] }

/-- The remote create response of the scenario: {idmedicamento: 42}. -/
def resp42 : JObj := [("idmedicamento", .jnum 42)]

/-- A locally edited FAQ awaiting upload: syncStatus PENDING_UPDATE with
serverId 5. -/
def faqPendente : Faq :=
  { uuid := "faq-uuid-1"
    serverId := some 5
    syncStatus := .pendingUpdate
    createdAt := 1
    updatedAt := 4
    syncedAt := some 2
    serverUpdatedAt := some 2
    pergunta := "pergunta local"
    resposta := "resposta local"
    farmaceutico_uuid := "farm-uuid-1" }

/-- A remote snapshot carrying the same serverId 5 with other content. -/
def apiFaq5 : ApiFaq :=
  { idfaq := 5
    pergunta := "pergunta do servidor"
    resposta := "resposta do servidor"
    createdAt := 3
    updatedAt := some 3 }

/-- A dto referencing a medicamento uuid with no local record at all. -/
def dtoGhost : CriarMinistraLocalDTO := { medicamento_uuid := "ghost-med" }

/-- The ministra record the second criar variant builds for that dto. -/
def ghostMinistra : Ministra :=
  { uuid := "min-uuid-1"
    serverId := none
    syncStatus := .pendingCreate
    createdAt := 15
    updatedAt := 15
    syncedAt := none
    serverUpdatedAt := none
    cliente_uuid := "cli-1"
    medicamento_uuid := "ghost-med"
    horario := none
    dosagem := none
    frequencia := none
    status := 1 }

/-- The malformed queue entry it enqueues (payload still keyed by
medicamento_uuid). -/
def ghostEntry : SyncQueueItem :=
  { id := "q-2"
    entity := "ministra"
    uuid := "min-uuid-1"
    operation := .create
    data := some [("medicamento_uuid", .jstr "ghost-med"), ("horario", .jnull),
                  ("dosagem", .jnull), ("frequencia", .jnull), ("status", .jnum 1)]
    timestamp := 15
    retries := 0
    maxRetries := 3 }

/-- A previously synced medication (truthy serverId 7). -/
def medSynced7 : Med :=
  { uuid := "u-s7"
    serverId := some 7
    syncStatus := .synced
    createdAt := 1
    updatedAt := 1
    syncedAt := some 1
    serverUpdatedAt := some 1
    nome := "Amoxicilina"
    descricao := "Antibiótico"
    classe := "Antibiótico"
    farmaceutico_uuid := none }

/-- A remote medicamento record with serverId 7. -/
def apiMed7 : ApiMed :=
  { idmedicamento := 7
    nome := "Amoxicilina 500mg"
    descricao := "Antibiótico beta-lactâmico"
    classe := "Antibiótico"
    createdAt := 50 }

/-! ## Proof scaffolding for merge idempotence -/

/-- A remote medicamento is absorbed in a state when its lookup finds a
record that the merge step leaves unchanged (because the overwrite either
reproduces it or is not taken). -/
def medAbsorbed (t : Nat) (a : ApiMed) (c : Coll Med) : Prop :=
  ∃ e, MedicamentoService.findByServerId c a.idmedicamento = some e
    ∧ (e.uuid, e) ∈ c
    ∧ (MedicamentoService.atualizadoMed a t e = e
       ∨ ¬ (a.ts > e.updatedAt ∧ e.syncStatus = .synced))

/-- The combined predicate selecting, among a collection's values, the
records the faq merge lookup can see for a given server id: carrying the
id and not soft-deleted (fused in the order filter-then-find produces). -/
def faqSel (i : Int) (f : Faq) : Bool :=
  decide (f.serverId = some i) && !f.deletedLocally

/-- A remote FAQ is still pending in state c relative to the original
collection c0 its write was computed from: its lookup is unchanged and
the key it will write to still holds what the write expects. -/
def faqPending (uuidFor : Int → String) (a : ApiFaq) (c0 c : Coll Faq) : Prop :=
  FaqService.mapAtuais c a.idfaq = FaqService.mapAtuais c0 a.idfaq
  ∧ (match FaqService.mapAtuais c0 a.idfaq with
     | some e => collGet c e.uuid = some e
     | none => uuidFor a.idfaq ∉ collKeys c)

/-- A remote FAQ is done in state c: its lookup yields exactly the record
the pass wrote, which sits at its key. -/
def faqDone (uuidFor farmFor : Int → String) (t : Nat) (a : ApiFaq)
    (c0 c : Coll Faq) : Prop :=
  FaqService.mapAtuais c a.idfaq = some (FaqService.faqUpd uuidFor farmFor t c0 a)
  ∧ collGet c (FaqService.faqUpd uuidFor farmFor t c0 a).uuid
      = some (FaqService.faqUpd uuidFor farmFor t c0 a)

/-! ## Lemmas about the collection primitives -/

theorem collGet_collSet_self {α : Type} (c : Coll α) (k : String) (v : α) :
    collGet (collSet c k v) k = some v := by
  induction c with
  | nil => simp [collSet, collGet]
  | cons p rest ih =>
      by_cases h : p.1 = k
      · simp [collSet, h, collGet]
      · simp [collSet, h, collGet, ih]

theorem collGet_collSet_ne {α : Type} (c : Coll α) {k' k : String} (v : α)
    (h : k' ≠ k) : collGet (collSet c k' v) k = collGet c k := by
  induction c with
  | nil => simp [collSet, collGet, h]
  | cons p rest ih =>
      by_cases hp : p.1 = k'
      · simp [collSet, hp, collGet, h, Ne.symm h]
      · by_cases hk : p.1 = k
        · simp [collSet, hp, collGet, hk, Ne.symm h]
        · simp [collSet, hp, collGet, hk, ih]

theorem collGet_collRemove_self {α : Type} (c : Coll α) (k : String) :
    collGet (collRemove c k) k = none := by
  induction c with
  | nil => simp [collRemove, collGet]
  | cons p rest ih =>
      by_cases h : p.1 = k
      · simpa [collRemove, List.filter, h] using ih
      · simpa [collRemove, List.filter, h, collGet] using ih

theorem collGet_mem {α : Type} {c : Coll α} {k : String} {v : α}
    (h : collGet c k = some v) : (k, v) ∈ c := by
  induction c with
  | nil => simp [collGet] at h
  | cons p rest ih =>
      by_cases hp : p.1 = k
      · simp [collGet, hp] at h
        obtain ⟨a, b⟩ := p
        simp only at hp h
        rw [← hp, ← h]
        exact List.mem_cons_self _ _
      · simp [collGet, hp] at h
        exact List.mem_cons_of_mem _ (ih h)

theorem collGet_mem_keys {α : Type} {c : Coll α} {k : String} {v : α}
    (h : collGet c k = some v) : k ∈ collKeys c := by
  have := collGet_mem h
  exact List.mem_map.mpr ⟨(k, v), this, rfl⟩

theorem mem_collGet {α : Type} {c : Coll α} {k : String} {v : α}
    (hwf : collWF c) (h : (k, v) ∈ c) : collGet c k = some v := by
  induction c with
  | nil => simp at h
  | cons p rest ih =>
      rcases List.mem_cons.mp h with h1 | h1
      · simp [collGet, ← h1]
      · have hk : k ∈ collKeys rest :=
          List.mem_map.mpr ⟨(k, v), h1, rfl⟩
        have hwf' : collWF rest := (List.nodup_cons.mp hwf).2
        have hne : p.1 ≠ k := by
          intro he
          exact (List.nodup_cons.mp hwf).1 (by simpa [he, collKeys] using hk)
        simp [collGet, hne]
        exact ih hwf' h1

theorem collSet_of_mem {α : Type} {c : Coll α} {k : String} {v : α}
    (hwf : collWF c) (h : (k, v) ∈ c) : collSet c k v = c := by
  induction c with
  | nil => simp at h
  | cons p rest ih =>
      rcases List.mem_cons.mp h with h1 | h1
      · cases p
        simp_all [collSet]
      · have hk : k ∈ collKeys rest :=
          List.mem_map.mpr ⟨(k, v), h1, rfl⟩
        have hwf' : collWF rest := (List.nodup_cons.mp hwf).2
        have hne : p.1 ≠ k := by
          intro he
          exact (List.nodup_cons.mp hwf).1 (by simpa [he, collKeys] using hk)
        simp [collSet, hne]
        exact ih hwf' h1

theorem mem_collKeys_collSet {α : Type} (c : Coll α) (k x : String) (v : α) :
    x ∈ collKeys (collSet c k v) ↔ x = k ∨ x ∈ collKeys c := by
  induction c with
  | nil => simp [collSet, collKeys]
  | cons p rest ih =>
      by_cases hp : p.1 = k
      · simp [collSet, hp, collKeys]
        try tauto
      · simp [collSet, hp, collKeys] at ih ⊢
        tauto

theorem collWF_collSet {α : Type} {c : Coll α} (k : String) (v : α)
    (hwf : collWF c) : collWF (collSet c k v) := by
  induction c with
  | nil => simp [collSet, collWF, collKeys]
  | cons p rest ih =>
      rcases List.nodup_cons.mp hwf with ⟨hp, hrest⟩
      by_cases hpk : p.1 = k
      · have : collWF ((k, v) :: rest) := by
          refine List.nodup_cons.mpr ⟨?_, hrest⟩
          simpa [hpk] using hp
        simpa [collSet, hpk] using this
      · have h2 := ih hrest
        have hkeys : collKeys (collSet (p :: rest) k v)
            = p.1 :: collKeys (collSet rest k v) := by
          simp [collSet, hpk, collKeys]
        have hnot : p.1 ∉ collKeys (collSet rest k v) := by
          rw [mem_collKeys_collSet]
          rintro (h | h)
          · exact hpk h
          · exact hp (by simpa [collKeys] using h)
        unfold collWF
        rw [show (collSet (p :: rest) k v).map (fun p => p.1)
              = collKeys (collSet (p :: rest) k v) from rfl, hkeys]
        exact List.nodup_cons.mpr ⟨hnot, h2⟩

theorem collKeyed_collSet {α : Type} {key : α → String} {c : Coll α}
    {k : String} {v : α} (hkeyed : collKeyed key c) (hv : key v = k) :
    collKeyed key (collSet c k v) := by
  induction c with
  | nil => simpa [collSet, collKeyed] using hv
  | cons p rest ih =>
      have hp1 := hkeyed p (List.mem_cons_self _ _)
      have hrest : collKeyed key rest := fun q hq =>
        hkeyed q (List.mem_cons_of_mem _ hq)
      by_cases hpk : p.1 = k
      · intro q hq
        simp only [collSet, hpk, if_pos] at hq
        rcases List.mem_cons.mp hq with h1 | h1
        · rw [h1]; exact hv
        · exact hrest q h1
      · intro q hq
        simp only [collSet, hpk, if_neg, not_false_iff] at hq
        rcases List.mem_cons.mp hq with h1 | h1
        · rw [h1]; exact hp1
        · exact ih hrest q h1

theorem foldl_fixed {α β : Type} {f : β → α → β} {l : List α} {s : β}
    (h : ∀ a ∈ l, f s a = s) : l.foldl f s = s := by
  induction l with
  | nil => rfl
  | cons a l ih =>
      have h1 : f s a = s := h a (List.mem_cons_self _ _)
      rw [List.foldl_cons, h1]
      exact ih (fun b hb => h b (List.mem_cons_of_mem _ hb))

/-! ## C10: implicit queue sanitization -/

/-- C10: cleanInvalidMinistraQueue removes from the queue exactly the
entries with entity 'ministra', operation 'create' and a payload carrying
a medicamento_uuid field but no medicamento_idmedicamento field
(claimInvalidMinistra states that condition in the claim's words); every
other entry is retained in its original relative order. -/
theorem C10_clean_invalid_ministra_queue (queue : List SyncQueueItem) :
    StorageService.cleanInvalidMinistraQueue queue
      = queue.filter (fun item => !claimInvalidMinistra item)
    ∧ (StorageService.cleanInvalidMinistraQueue queue).Sublist queue := by
  have hpt : ∀ item : SyncQueueItem,
      (if item.entity = "ministra" ∧ item.operation = Op.create then
        match item.data with
        | some d =>
            if jsHasKey d "medicamento_uuid" ∧ ¬ jsHasKey d "medicamento_idmedicamento"
            then false else true
        | none => true
      else true) = !claimInvalidMinistra item := by
    intro item
    rcases hd : item.data with _ | d <;>
      by_cases h1 : item.entity = "ministra" <;>
        by_cases h2 : item.operation = Op.create <;>
          simp [claimInvalidMinistra, hd, h1, h2]
  constructor
  · unfold StorageService.cleanInvalidMinistraQueue
    exact List.filter_congr (fun a _ => hpt a)
  · exact List.filter_sublist _

/-! ## C6: queue FIFO -/

theorem addToSyncQueue_seq (q : List SyncQueueItem) (es : List SyncQueueItem) :
    es.foldl StorageService.addToSyncQueue q = q ++ es := by
  induction es generalizing q with
  | nil => simp
  | cons e es ih =>
      rw [List.foldl_cons, ih]
      simp [StorageService.addToSyncQueue]

theorem uploadRun_log_aux (remote : SyncService.Remote) (t : Nat)
    (l : List SyncQueueItem) (s : MedicamentoService.St)
    (acc : List SyncQueueItem) :
    (l.foldl
      (fun a i => (SyncService.uploadStep remote t a.1 i, a.2 ++ [i]))
      (s, acc)).2 = acc ++ l := by
  induction l generalizing s acc with
  | nil => simp
  | cons e es ih =>
      rw [List.foldl_cons, ih]
      simp

/-- C6: enqueue appends at the tail (a sequence of enqueues lists the
entries in issuance order after any prefix), dequeue-by-id keeps the
remaining entries in their relative order, and one upload pass hands the
entries to the remote dispatch in exactly the queue's order. -/
theorem C6_queue_fifo :
    (∀ (q es : List SyncQueueItem),
        es.foldl StorageService.addToSyncQueue q = q ++ es)
    ∧ (∀ (q : List SyncQueueItem) (i : String),
        (StorageService.removeFromSyncQueue q i).Sublist q)
    ∧ (∀ (remote : SyncService.Remote) (t : Nat) (st : MedicamentoService.St),
        (SyncService.uploadRun remote t st).2 = st.queue) := by
  refine ⟨addToSyncQueue_seq, ?_, ?_⟩
  · intro q i
    exact List.filter_sublist _
  · intro remote t st
    unfold SyncService.uploadRun
    rw [uploadRun_log_aux]
    simp

/-! ## C3: retry exhaustion (code bug: the increment is never persisted) -/

/-- C3: the retry counter incremented on failure lives only on the
in-memory copy of the queue entry; with the entry's maxRetries of 3, an
upload pass whose every dispatch fails leaves the durable state exactly
unchanged (retries still 0), so any number of failing passes never drops
the entry — while a single pass does drop an entry whose maxRetries is 1,
showing the increment-then-compare happens only within one pass. -/
theorem C3_retry_exhaustion_bug :
    (∀ n : Nat,
      (fun st => SyncService.uploadPendingChanges (fun _ => none) 20 st)^[n]
        dipironaSt = dipironaSt)
    ∧ SyncService.uploadPendingChanges (fun _ => none) 20
        { dipironaSt with queue := [{ dipironaEntry with maxRetries := 1 }] }
      = { dipironaSt with queue := [] } := by
  constructor
  · intro n
    apply Function.iterate_fixed
    decide
  · decide

/-! ## C2: create round-trip (code bug: serverId is not taken from
idmedicamento) -/

/-- C2: syncing the offline-created medication against a remote create
response of {idmedicamento: 42} removes the queue entry and marks the
record SYNCED with syncedAt set, but stores serverId = null — the
extraction chain response.id || response.idfaq || response.iddica has no
idmedicamento case — instead of the claimed serverId = 42. -/
theorem C2_create_round_trip_bug :
    (SyncService.uploadPendingChanges (fun _ => some resp42) 20 dipironaSt).queue = []
    ∧ collGet (SyncService.uploadPendingChanges (fun _ => some resp42) 20 dipironaSt).meds
        "med-uuid-1" = some (markAsSynced dipirona none 20)
    ∧ (markAsSynced dipirona none 20).syncStatus = .synced
    ∧ (markAsSynced dipirona none 20).syncedAt = some 20
    ∧ (markAsSynced dipirona none 20).serverId = none := by
  refine ⟨by decide, by decide, rfl, rfl, rfl⟩

/-! ## C5: identity invariant (violated through the same slip) -/

/-- C5: the record stored by syncCreate for the medicamento entity when
the server answers {idmedicamento: 42} is SYNCED with serverId null,
violating the identity invariant serverId == null implies
syncStatus != SYNCED. -/
theorem C5_identity_invariant_bug :
    collGet (SyncService.syncCreate [("med-uuid-1", dipirona)] "med-uuid-1" resp42 20)
        "med-uuid-1"
      = some (markAsSynced dipirona
          (SyncService.jvalToServerId (SyncService.respServerId resp42)) 20)
    ∧ ¬ identityInvariant (markAsSynced dipirona
          (SyncService.jvalToServerId (SyncService.respServerId resp42)) 20) := by
  refine ⟨by decide, ?_⟩
  intro h
  exact absurd (h (by decide)) (by decide)

/-! ## C4: entity-service create (corrected: FAQ create is online-only) -/

/-- C4 counterexample: FaqService.criar for a farmacêutico performs the
network request and fails when the network is unavailable (HTTP status 0),
refuting the claim that create never fails due to the network for every
entity service. -/
theorem C4_counterexample_faq_online :
    FaqService.criar (some .farmaceutico) "Posso tomar com leite?" "Sim." none
        (some "token") (.httpError 0 none) "faq-uuid-9" 9 []
      = .error "Sem conexão. Não foi possível criar a FAQ."
    ∧ (∀ faqs faq,
        FaqService.criar (some .farmaceutico) "Posso tomar com leite?" "Sim." none
            (some "token") (.ok 7 "Posso tomar com leite?" "Sim.") "faq-uuid-9" 9 []
          = .ok (faqs, faq) → faq.syncStatus = .synced ∧ faq.serverId = some 7) := by
  constructor
  · rfl
  · intro faqs faq h
    simp [FaqService.criar] at h
    rw [← h.2]
    exact ⟨rfl, rfl⟩

/-- C4 (amended): MedicamentoService.criar is local-only: it persists the
new record under the given uuid with syncStatus PENDING_CREATE and
serverId null, appends exactly one create entry for it to the mutation
queue, republishes the collection view, and — being a total function of
the local state with no network collaborator — always completes. -/
theorem C4_create_local_only (dto : CriarMedicamentoLocalDTO)
    (uuid qid : String) (t : Nat) (st : MedicamentoService.St) :
    (MedicamentoService.criar dto uuid qid t st).2.syncStatus = .pendingCreate
    ∧ (MedicamentoService.criar dto uuid qid t st).2.serverId = none
    ∧ (MedicamentoService.criar dto uuid qid t st).2.uuid = uuid
    ∧ collGet (MedicamentoService.criar dto uuid qid t st).1.meds uuid
        = some (MedicamentoService.criar dto uuid qid t st).2
    ∧ (∃ e, (MedicamentoService.criar dto uuid qid t st).1.queue = st.queue ++ [e]
        ∧ e.operation = .create ∧ e.entity = "medicamento" ∧ e.uuid = uuid)
    ∧ (MedicamentoService.criar dto uuid qid t st).1.subject
        = MedicamentoService.carregarMedicamentos
            (MedicamentoService.criar dto uuid qid t st).1.meds := by
  refine ⟨rfl, rfl, rfl, ?_, ⟨_, rfl, rfl, rfl, rfl⟩, rfl⟩
  exact collGet_collSet_self _ _ _

/-! ## C7: administration create precondition (corrected: only the first
variant validates) -/

/-- C7 counterexample: the second MinistraService.criar variant, called
with a dto whose medication has no local record at all, succeeds —
persisting the record and enqueuing a payload still keyed by
medicamento_uuid — instead of failing with an explicit error. -/
theorem C7_counterexample_v2 :
    MinistraService.criarV2 dtoGhost "cli-1" "min-uuid-1" "q-2" 15 ⟨[], []⟩
      = .ok (⟨[("min-uuid-1", ghostMinistra)], [ghostEntry]⟩, ghostMinistra) := by
  rfl

/-- C7 (amended): the first MinistraService.criar variant — the one that
is injected with MedicamentoService — rejects with an explicit error any
dto whose medication is absent locally or has no truthy serverId, leaving
the ministra collection and the mutation queue untouched. -/
theorem C7_ministra_criar_rejects (dto : CriarMinistraLocalDTO)
    (cliente_uuid uuid qid : String) (t : Nat) (meds : Coll Med)
    (st : MinistraService.St)
    (hmed : ∀ m, MedicamentoService.buscarPorUuid meds dto.medicamento_uuid = some m →
        sidTruthy m.serverId = false) :
    (∃ msg, MinistraService.criarV1 dto cliente_uuid uuid qid t meds st = .error msg)
    ∧ MinistraService.criarV1Run dto cliente_uuid uuid qid t meds st = st := by
  have herr : ∃ msg,
      MinistraService.criarV1 dto cliente_uuid uuid qid t meds st = .error msg := by
    unfold MinistraService.criarV1
    by_cases hc : cliente_uuid = ""
    · exact ⟨"UUID do cliente é necessário para criar ministração", by simp [hc]⟩
    · cases hb : MedicamentoService.buscarPorUuid meds dto.medicamento_uuid with
      | none => exact ⟨"Medicamento não encontrado", by simp [hc, hb]⟩
      | some m =>
          exact ⟨"Aguarde a sincronização do medicamento antes de adicioná-lo à sua lista",
            by simp [hc, hb, hmed m hb]⟩
  obtain ⟨msg, hmsg⟩ := herr
  refine ⟨⟨msg, hmsg⟩, ?_⟩
  unfold MinistraService.criarV1Run
  rw [hmsg]

/-- Witness for C7: the rejection theorem applied to the concrete ghost
dto over an empty medicamento collection. -/
theorem C7_witness :
    (∀ m, MedicamentoService.buscarPorUuid ([] : Coll Med)
        dtoGhost.medicamento_uuid = some m → sidTruthy m.serverId = false)
    ∧ ((∃ msg, MinistraService.criarV1 dtoGhost "cli-1" "min-uuid-1" "q-2" 15 [] ⟨[], []⟩
          = .error msg)
       ∧ MinistraService.criarV1Run dtoGhost "cli-1" "min-uuid-1" "q-2" 15 [] ⟨[], []⟩
          = ⟨[], []⟩) :=
  ⟨fun m h => by simp [MedicamentoService.buscarPorUuid, collGet] at h,
   C7_ministra_criar_rejects dtoGhost "cli-1" "min-uuid-1" "q-2" 15 [] ⟨[], []⟩
     (fun m h => by simp [MedicamentoService.buscarPorUuid, collGet] at h)⟩

/-! ## C9: soft-delete round trip -/

/-- C9: deletar on a stored record with truthy serverId returns true,
keeps the soft-deleted record retrievable by buscarPorUuid (deletedLocally
true, PENDING_DELETE) while it is absent from the published list view, and
appends exactly one delete entry; draining that entry (any successful
remote dispatch) removes both the record — buscarPorUuid then yields
null — and the queue entry. On a record whose serverId is not truthy,
deletar purges immediately and enqueues nothing. -/
theorem C9_soft_delete_round_trip (st : MedicamentoService.St)
    (uuid qid : String) (t : Nat) (m : Med)
    (hget : collGet st.meds uuid = some m) (hm : m.uuid = uuid) :
    (sidTruthy m.serverId = true →
       (MedicamentoService.deletar uuid qid t st).2 = true
       ∧ collGet (MedicamentoService.deletar uuid qid t st).1.meds uuid
           = some (markAsDeleted m t)
       ∧ (markAsDeleted m t).deletedLocally = true
       ∧ (markAsDeleted m t).syncStatus = .pendingDelete
       ∧ markAsDeleted m t ∉ (MedicamentoService.deletar uuid qid t st).1.subject
       ∧ ∃ e, (MedicamentoService.deletar uuid qid t st).1.queue = st.queue ++ [e]
           ∧ e.operation = .delete ∧ e.uuid = uuid
           ∧ ∀ remote : SyncService.Remote, remote e ≠ none →
               collGet (SyncService.uploadStep remote t
                   (MedicamentoService.deletar uuid qid t st).1 e).meds uuid = none
               ∧ e ∉ (SyncService.uploadStep remote t
                   (MedicamentoService.deletar uuid qid t st).1 e).queue)
    ∧ (sidTruthy m.serverId = false →
       (MedicamentoService.deletar uuid qid t st).2 = true
       ∧ collGet (MedicamentoService.deletar uuid qid t st).1.meds uuid = none
       ∧ (MedicamentoService.deletar uuid qid t st).1.queue = st.queue) := by
  constructor
  · intro hsid
    have hr : MedicamentoService.deletar uuid qid t st
        = ({ meds := collSet st.meds uuid (markAsDeleted m t)
             queue := st.queue ++
               [{ id := qid, entity := "medicamento", uuid := m.uuid,
                  operation := .delete, data := none, timestamp := t,
                  retries := 0, maxRetries := 3 }]
             subject := MedicamentoService.carregarMedicamentos
               (collSet st.meds uuid (markAsDeleted m t)) }, true) := by
      simp [MedicamentoService.deletar, hget, hsid, StorageService.addToSyncQueue]
    refine ⟨by rw [hr], ?_, rfl, rfl, ?_, ?_⟩
    · rw [hr]
      exact collGet_collSet_self _ _ _
    · rw [hr]
      intro hmem
      have := (List.mem_filter.mp hmem).2
      simp [markAsDeleted] at this
    · refine ⟨_, by rw [hr], rfl, hm, ?_⟩
      intro remote hremote
      obtain ⟨resp, hresp⟩ := Option.ne_none_iff_exists'.mp hremote
      rw [hm] at hresp
      have hmarked : sidTruthy (markAsDeleted m t).serverId = true := hsid
      have hstep : SyncService.uploadStep remote t
          (MedicamentoService.deletar uuid qid t st).1
          { id := qid, entity := "medicamento", uuid := m.uuid,
            operation := .delete, data := none, timestamp := t,
            retries := 0, maxRetries := 3 }
          = { meds := collRemove (collSet st.meds uuid (markAsDeleted m t)) uuid
              queue := StorageService.removeFromSyncQueue
                (MedicamentoService.deletar uuid qid t st).1.queue qid
              subject := (MedicamentoService.deletar uuid qid t st).1.subject } := by
        rw [hr]
        simp [SyncService.uploadStep, hm, collGet_collSet_self, hmarked, hresp]
      rw [hstep]
      constructor
      · exact collGet_collRemove_self _ _
      · intro hmem
        have := (List.mem_filter.mp hmem).2
        simp at this
  · intro hsid
    have hr : MedicamentoService.deletar uuid qid t st
        = ({ meds := collRemove (collSet st.meds uuid (markAsDeleted m t)) uuid
             queue := st.queue
             subject := MedicamentoService.carregarMedicamentos
               (collRemove (collSet st.meds uuid (markAsDeleted m t)) uuid) }, true) := by
      simp [MedicamentoService.deletar, hget, hsid]
    refine ⟨by rw [hr], ?_, by rw [hr]⟩
    rw [hr]
    exact collGet_collRemove_self _ _

/-- Witness for C9: the round trip applied to a concrete state holding
one previously synced medication. -/
theorem C9_witness :
    collGet [("u-s7", medSynced7)] "u-s7" = some medSynced7
    ∧ medSynced7.uuid = "u-s7"
    ∧ ((sidTruthy medSynced7.serverId = true →
       (MedicamentoService.deletar "u-s7" "q-9" 30
           ⟨[("u-s7", medSynced7)], [], [medSynced7]⟩).2 = true
       ∧ collGet (MedicamentoService.deletar "u-s7" "q-9" 30
           ⟨[("u-s7", medSynced7)], [], [medSynced7]⟩).1.meds "u-s7"
           = some (markAsDeleted medSynced7 30)
       ∧ (markAsDeleted medSynced7 30).deletedLocally = true
       ∧ (markAsDeleted medSynced7 30).syncStatus = .pendingDelete
       ∧ markAsDeleted medSynced7 30 ∉ (MedicamentoService.deletar "u-s7" "q-9" 30
           ⟨[("u-s7", medSynced7)], [], [medSynced7]⟩).1.subject
       ∧ ∃ e, (MedicamentoService.deletar "u-s7" "q-9" 30
               ⟨[("u-s7", medSynced7)], [], [medSynced7]⟩).1.queue = [] ++ [e]
           ∧ e.operation = .delete ∧ e.uuid = "u-s7"
           ∧ ∀ remote : SyncService.Remote, remote e ≠ none →
               collGet (SyncService.uploadStep remote 30
                   (MedicamentoService.deletar "u-s7" "q-9" 30
                     ⟨[("u-s7", medSynced7)], [], [medSynced7]⟩).1 e).meds "u-s7" = none
               ∧ e ∉ (SyncService.uploadStep remote 30
                   (MedicamentoService.deletar "u-s7" "q-9" 30
                     ⟨[("u-s7", medSynced7)], [], [medSynced7]⟩).1 e).queue)
      ∧ (sidTruthy medSynced7.serverId = false →
       (MedicamentoService.deletar "u-s7" "q-9" 30
           ⟨[("u-s7", medSynced7)], [], [medSynced7]⟩).2 = true
       ∧ collGet (MedicamentoService.deletar "u-s7" "q-9" 30
           ⟨[("u-s7", medSynced7)], [], [medSynced7]⟩).1.meds "u-s7" = none
       ∧ (MedicamentoService.deletar "u-s7" "q-9" 30
           ⟨[("u-s7", medSynced7)], [], [medSynced7]⟩).1.queue = [])) :=
  ⟨by decide, rfl,
   C9_soft_delete_round_trip ⟨[("u-s7", medSynced7)], [], [medSynced7]⟩
     "u-s7" "q-9" 30 medSynced7 (by decide) rfl⟩

/-! ## C1: pending-wins (corrected: only the medicamento merge checks
syncStatus) -/

theorem findByServerId_spec {meds : Coll Med} {i : Int} {e : Med}
    (h : MedicamentoService.findByServerId meds i = some e) :
    e ∈ collValues meds ∧ e.serverId = some i := by
  unfold MedicamentoService.findByServerId at h
  refine ⟨List.mem_of_find?_eq_some h, ?_⟩
  have := List.find?_some h
  simpa using this

theorem mesclarStep_none {meds : Coll Med} {a : ApiMed}
    {uuidFor farmFor : Int → String} {t : Nat}
    (h : MedicamentoService.findByServerId meds a.idmedicamento = none) :
    MedicamentoService.mesclarStep uuidFor farmFor t meds a
      = collSet meds (uuidFor a.idmedicamento)
          (MedicamentoService.novoMedLocal uuidFor farmFor t a) := by
  unfold MedicamentoService.mesclarStep
  rw [h]
  rfl

theorem mesclarStep_some_pos {meds : Coll Med} {a : ApiMed} {e : Med}
    {uuidFor farmFor : Int → String} {t : Nat}
    (h : MedicamentoService.findByServerId meds a.idmedicamento = some e)
    (hcond : a.ts > e.updatedAt ∧ e.syncStatus = .synced) :
    MedicamentoService.mesclarStep uuidFor farmFor t meds a
      = collSet meds e.uuid (MedicamentoService.atualizadoMed a t e) := by
  unfold MedicamentoService.mesclarStep
  rw [h]
  exact if_pos hcond

theorem mesclarStep_some_neg {meds : Coll Med} {a : ApiMed} {e : Med}
    {uuidFor farmFor : Int → String} {t : Nat}
    (h : MedicamentoService.findByServerId meds a.idmedicamento = some e)
    (hcond : ¬ (a.ts > e.updatedAt ∧ e.syncStatus = .synced)) :
    MedicamentoService.mesclarStep uuidFor farmFor t meds a = meds := by
  unfold MedicamentoService.mesclarStep
  rw [h]
  exact if_neg hcond

/-- C1 counterexample: FaqService.mesclarDoServidor overwrites the domain
fields of a local FAQ whose syncStatus is PENDING_UPDATE with the remote
payload for its serverId, so pending-wins does not hold for every entity
service. -/
theorem C1_counterexample_faq :
    faqPendente.syncStatus ≠ SyncStatus.synced
    ∧ faqPendente.pergunta = "pergunta local"
    ∧ (collGet (FaqService.mesclarDoServidor (fun _ => "w1") (fun _ => "w2") 9
        [apiFaq5] [("faq-uuid-1", faqPendente)]) "faq-uuid-1").map Faq.pergunta
      = some "pergunta do servidor"
    ∧ (collGet (FaqService.mesclarDoServidor (fun _ => "w1") (fun _ => "w2") 9
        [apiFaq5] [("faq-uuid-1", faqPendente)]) "faq-uuid-1").map Faq.syncStatus
      = some SyncStatus.synced := by
  refine ⟨by decide, rfl, by decide, by decide⟩

theorem pending_wins_med_aux (snapshot : List ApiMed)
    (uuidFor farmFor : Int → String) (t : Nat) (k : String) (m : Med) :
    ∀ meds : Coll Med, collWF meds → collKeyed Med.uuid meds →
    (∀ a ∈ snapshot, uuidFor a.idmedicamento ≠ k) →
    collGet meds k = some m → m.syncStatus ≠ .synced →
    collGet (MedicamentoService.mesclarDoServidor uuidFor farmFor t snapshot meds) k
      = some m := by
  induction snapshot with
  | nil => intro meds _ _ _ hget _; exact hget
  | cons a rest ih =>
      intro meds hwf hkeyed hne hget hpend
      have hstep :
          collWF (MedicamentoService.mesclarStep uuidFor farmFor t meds a)
          ∧ collKeyed Med.uuid (MedicamentoService.mesclarStep uuidFor farmFor t meds a)
          ∧ collGet (MedicamentoService.mesclarStep uuidFor farmFor t meds a) k
              = some m := by
        cases hfind : MedicamentoService.findByServerId meds a.idmedicamento with
        | none =>
            have hne_a : uuidFor a.idmedicamento ≠ k :=
              hne a (List.mem_cons_self _ _)
            rw [mesclarStep_none hfind]
            refine ⟨collWF_collSet _ _ hwf, collKeyed_collSet hkeyed rfl, ?_⟩
            rw [collGet_collSet_ne _ _ hne_a]
            exact hget
        | some e =>
            by_cases hcond : a.ts > e.updatedAt ∧ e.syncStatus = .synced
            · rw [mesclarStep_some_pos hfind hcond]
              have hne_e : e.uuid ≠ k := by
                intro he
                obtain ⟨hv, _⟩ := findByServerId_spec hfind
                obtain ⟨p, hp, hpe⟩ := List.mem_map.mp hv
                have hkey : p.1 = e.uuid := by
                  rw [← hkeyed p hp, hpe]
                have hmem : (k, e) ∈ meds := by
                  have hp2 : (p.1, p.2) ∈ meds := by simpa using hp
                  rw [hkey, hpe] at hp2
                  rw [← he]
                  exact hp2
                have hg2 := mem_collGet hwf hmem
                rw [hget] at hg2
                injection hg2 with h1
                exact hpend (by rw [h1]; exact hcond.2)
              refine ⟨collWF_collSet _ _ hwf, collKeyed_collSet hkeyed rfl, ?_⟩
              rw [collGet_collSet_ne _ _ hne_e]
              exact hget
            · rw [mesclarStep_some_neg hfind hcond]
              exact ⟨hwf, hkeyed, hget⟩
      exact ih _ hstep.1 hstep.2.1
        (fun b hb => hne b (List.mem_cons_of_mem _ hb)) hstep.2.2 hpend

/-- C1 (amended): pending-wins holds for MedicamentoService's
mesclarDoServidor — a stored record whose syncStatus is not SYNCED is left
exactly unchanged by a merge with any remote snapshot (the overwrite
branch requires the remote timestamp strictly newer AND the local record
SYNCED) — while FaqService's merge overwrites unconditionally and the
MinistraService merge compares only timestamps. -/
theorem C1_pending_wins_medicamento (meds : Coll Med) (snapshot : List ApiMed)
    (uuidFor farmFor : Int → String) (t : Nat) (k : String) (m : Med)
    (hwf : collWF meds) (hkeyed : collKeyed Med.uuid meds)
    (hfresh : ∀ a ∈ snapshot, uuidFor a.idmedicamento ∉ collKeys meds)
    (hget : collGet meds k = some m) (hpend : m.syncStatus ≠ .synced) :
    collGet (MedicamentoService.mesclarDoServidor uuidFor farmFor t snapshot meds) k
      = some m := by
  have hk : k ∈ collKeys meds := collGet_mem_keys hget
  exact pending_wins_med_aux snapshot uuidFor farmFor t k m meds hwf hkeyed
    (fun a ha he => hfresh a ha (he ▸ hk)) hget hpend

/-- Witness for C1: the pending-wins theorem on a concrete one-record
pending collection against a concrete snapshot. -/
theorem C1_witness :
    collWF [("med-uuid-1", dipirona)]
    ∧ collKeyed Med.uuid [("med-uuid-1", dipirona)]
    ∧ (∀ a ∈ [apiMed7], (fun _ : Int => "fresh-7") a.idmedicamento
        ∉ collKeys [("med-uuid-1", dipirona)])
    ∧ collGet [("med-uuid-1", dipirona)] "med-uuid-1" = some dipirona
    ∧ dipirona.syncStatus ≠ SyncStatus.synced
    ∧ collGet (MedicamentoService.mesclarDoServidor (fun _ => "fresh-7")
        (fun _ => "farm-7") 60 [apiMed7] [("med-uuid-1", dipirona)]) "med-uuid-1"
      = some dipirona :=
  ⟨by decide, by decide, by decide, by decide, by decide,
   C1_pending_wins_medicamento [("med-uuid-1", dipirona)] [apiMed7]
     (fun _ => "fresh-7") (fun _ => "farm-7") 60 "med-uuid-1" dipirona
     (by decide) (by decide) (by decide) (by decide) (by decide)⟩

/-! ## C8: idempotent merge — generic collection lemmas -/

theorem entry_of_values_mem {α : Type} {key : α → String} {c : Coll α} {x : α}
    (hkeyed : collKeyed key c) (hx : x ∈ collValues c) : (key x, x) ∈ c := by
  obtain ⟨p, hp, hpe⟩ := List.mem_map.mp hx
  have hk := hkeyed p hp
  rw [← hpe, hk]
  simpa using hp

theorem key_ne_of_entries {α : Type} {c : Coll α} {k₁ k₂ : String} {v₁ v₂ : α}
    (hwf : collWF c) (h1 : (k₁, v₁) ∈ c) (h2 : (k₂, v₂) ∈ c) (hne : v₁ ≠ v₂) :
    k₁ ≠ k₂ := by
  intro he
  rw [he] at h1
  have g1 := mem_collGet hwf h1
  have g2 := mem_collGet hwf h2
  rw [g1] at g2
  injection g2 with g3
  exact hne g3

theorem mem_collSet_self {α : Type} (c : Coll α) (k : String) (v : α) :
    (k, v) ∈ collSet c k v := by
  induction c with
  | nil => simp [collSet]
  | cons p rest ih =>
      by_cases hp : p.1 = k
      · simp [collSet, hp]
      · simp only [collSet, hp, if_neg, not_false_iff]
        exact List.mem_cons_of_mem _ ih

theorem mem_collSet_of_mem {α : Type} {c : Coll α} {k₂ : String} {v₂ : α}
    (k : String) (v : α) (h : (k₂, v₂) ∈ c) (hne : k₂ ≠ k) :
    (k₂, v₂) ∈ collSet c k v := by
  induction c with
  | nil => simp at h
  | cons p rest ih =>
      by_cases hp : p.1 = k
      · simp only [collSet, hp, if_pos]
        rcases List.mem_cons.mp h with h1 | h1
        · exfalso
          apply hne
          rw [← h1] at hp
          exact hp
        · exact List.mem_cons_of_mem _ h1
      · simp only [collSet, hp, if_neg, not_false_iff]
        rcases List.mem_cons.mp h with h1 | h1
        · rw [h1]; exact List.mem_cons_self _ _
        · exact List.mem_cons_of_mem _ (ih h1)

theorem collSet_eq_append {α : Type} {c : Coll α} {k : String} (v : α)
    (h : k ∉ collKeys c) : collSet c k v = c ++ [(k, v)] := by
  induction c with
  | nil => rfl
  | cons p rest ih =>
      have hp : p.1 ≠ k := by
        intro he
        exact h (by simp [collKeys, he])
      have hrest : k ∉ collKeys rest := by
        intro hm
        exact h (by simp [collKeys]; right; simpa [collKeys] using hm)
      simp only [collSet, hp, if_neg, not_false_iff, List.cons_append]
      rw [ih hrest]

theorem collValues_append {α : Type} (c₁ c₂ : Coll α) :
    collValues (c₁ ++ c₂) = collValues c₁ ++ collValues c₂ :=
  List.map_append _ _ _

theorem collValues_cons {α : Type} (q : String × α) (rest : Coll α) :
    collValues (q :: rest) = q.2 :: collValues rest := rfl

theorem collSet_cons_pos {α : Type} {q : String × α} {rest : Coll α}
    {k : String} (v : α) (h : q.1 = k) :
    collSet (q :: rest) k v = (k, v) :: rest := by
  simp [collSet, h]

theorem collSet_cons_neg {α : Type} {q : String × α} {rest : Coll α}
    {k : String} (v : α) (h : q.1 ≠ k) :
    collSet (q :: rest) k v = q :: collSet rest k v := by
  simp [collSet, h]

theorem mem_keys_of_entry {α : Type} {c : Coll α} {k : String} {v : α}
    (h : (k, v) ∈ c) : k ∈ collKeys c :=
  List.mem_map.mpr ⟨(k, v), h, rfl⟩

theorem find?_values_collSet_of_ne {α : Type} {p : α → Bool} {c : Coll α}
    {k : String} {w v : α} (hwf : collWF c) (hmem : (k, w) ∈ c)
    (hw : p w = false) (hv : p v = false) :
    (collValues (collSet c k v)).find? p = (collValues c).find? p := by
  induction c with
  | nil => simp at hmem
  | cons q rest ih =>
      rcases List.nodup_cons.mp hwf with ⟨hq, hwfr⟩
      have hq' : q.1 ∉ collKeys rest := hq
      by_cases hqk : q.1 = k
      · have hw2 : q.2 = w := by
          rcases List.mem_cons.mp hmem with h1 | h1
          · rw [← h1]
          · exact absurd (by rw [hqk]; exact mem_keys_of_entry h1) hq'
        rw [collSet_cons_pos v hqk, collValues_cons, collValues_cons]
        rw [List.find?_cons_of_neg _ (by simp [hv]),
          List.find?_cons_of_neg _ (by simp [hw2, hw])]
      · have h1 : (k, w) ∈ rest := by
          rcases List.mem_cons.mp hmem with h1 | h1
          · exact absurd (congrArg Prod.fst h1.symm) hqk
          · exact h1
        rw [collSet_cons_neg v hqk, collValues_cons, collValues_cons]
        cases hpq : p q.2
        · rw [List.find?_cons_of_neg _ (by simp [hpq]),
            List.find?_cons_of_neg _ (by simp [hpq])]
          exact ih hwfr h1
        · rw [List.find?_cons_of_pos _ hpq, List.find?_cons_of_pos _ hpq]

theorem find?_values_collSet_found {α : Type} {key : α → String} {p : α → Bool}
    {c : Coll α} {w v : α} (hwf : collWF c) (hkeyed : collKeyed key c)
    (hfind : (collValues c).find? p = some w) (hv : p v = true) :
    (collValues (collSet c (key w) v)).find? p = some v := by
  induction c with
  | nil => simp [collValues] at hfind
  | cons q rest ih =>
      rcases List.nodup_cons.mp hwf with ⟨hq, hwfr⟩
      have hq' : q.1 ∉ collKeys rest := hq
      have hkq := hkeyed q (List.mem_cons_self _ _)
      have hkeyedr : collKeyed key rest := fun x hx =>
        hkeyed x (List.mem_cons_of_mem _ hx)
      rw [collValues_cons] at hfind
      cases hpq : p q.2 with
      | true =>
          rw [List.find?_cons_of_pos _ hpq] at hfind
          have hwq : w = q.2 := by injection hfind with h1; rw [h1]
          have hkey : q.1 = key w := by rw [hwq, hkq]
          rw [collSet_cons_pos v hkey, collValues_cons]
          exact List.find?_cons_of_pos _ hv
      | false =>
          rw [List.find?_cons_of_neg _ (by simp [hpq])] at hfind
          have hne : q.1 ≠ key w := by
            intro he
            have hwmem : w ∈ collValues rest :=
              List.mem_of_find?_eq_some hfind
            have hentry : (key w, w) ∈ rest := entry_of_values_mem hkeyedr hwmem
            exact hq' (by rw [he]; exact mem_keys_of_entry hentry)
          rw [collSet_cons_neg v hne, collValues_cons,
            List.find?_cons_of_neg _ (by simp [hpq])]
          exact ih hwfr hkeyedr hfind

theorem mem_of_getLast?_eq_some {α : Type} {l : List α} {x : α}
    (h : l.getLast? = some x) : x ∈ l := by
  have hx : x ∈ l.getLast? := Option.mem_def.mpr h
  obtain ⟨hne, he⟩ := List.mem_getLast?_eq_getLast hx
  rw [he]
  exact List.getLast_mem _

theorem getLast?_cons_of_some {α : Type} {l : List α} {x : α} (y : α)
    (h : l.getLast? = some x) : (y :: l).getLast? = some x :=
  List.mem_getLast?_cons (Option.mem_def.mpr h)

theorem reverse_find?_eq_getLast?_filter {α : Type} (l : List α) (p : α → Bool) :
    l.reverse.find? p = (l.filter p).getLast? := by
  induction l with
  | nil => rfl
  | cons x xs ih =>
      rw [List.reverse_cons, List.find?_append, ih]
      cases hx : p x with
      | true =>
          rw [List.filter_cons_of_pos hx]
          cases hfl : (xs.filter p) with
          | nil => simp [List.find?, hx]
          | cons y ys =>
              rw [List.getLast?_cons_cons]
              have hne : (y :: ys).getLast? ≠ none := by
                simp [List.getLast?_eq_none_iff]
              obtain ⟨z, hz⟩ := Option.ne_none_iff_exists'.mp hne
              rw [hz]
              rfl
      | false =>
          rw [List.filter_cons_of_neg (by simp [hx])]
          have hnone : List.find? p [x] = none := by simp [List.find?, hx]
          rw [hnone, Option.or_none]

theorem filter_values_collSet_of_ne {α : Type} {p : α → Bool} {c : Coll α}
    {k : String} {w v : α} (hwf : collWF c) (hmem : (k, w) ∈ c)
    (hw : p w = false) (hv : p v = false) :
    (collValues (collSet c k v)).filter p = (collValues c).filter p := by
  induction c with
  | nil => simp at hmem
  | cons q rest ih =>
      rcases List.nodup_cons.mp hwf with ⟨hq, hwfr⟩
      have hq' : q.1 ∉ collKeys rest := hq
      by_cases hqk : q.1 = k
      · have hw2 : q.2 = w := by
          rcases List.mem_cons.mp hmem with h1 | h1
          · rw [← h1]
          · exact absurd (by rw [hqk]; exact mem_keys_of_entry h1) hq'
        rw [collSet_cons_pos v hqk, collValues_cons, collValues_cons]
        rw [List.filter_cons_of_neg (by simp [hv]),
          List.filter_cons_of_neg (by simp [hw2, hw])]
      · have h1 : (k, w) ∈ rest := by
          rcases List.mem_cons.mp hmem with h1 | h1
          · exact absurd (congrArg Prod.fst h1.symm) hqk
          · exact h1
        rw [collSet_cons_neg v hqk, collValues_cons, collValues_cons]
        cases hpq : p q.2
        · rw [List.filter_cons_of_neg (by simp [hpq]),
            List.filter_cons_of_neg (by simp [hpq])]
          exact ih hwfr h1
        · rw [List.filter_cons_of_pos hpq, List.filter_cons_of_pos hpq,
            ih hwfr h1]

theorem getLast?_filter_collSet_found {α : Type} {key : α → String}
    {p : α → Bool} {c : Coll α} {w v : α} (hwf : collWF c)
    (hkeyed : collKeyed key c)
    (hlast : ((collValues c).filter p).getLast? = some w)
    (hv : p v = true) :
    ((collValues (collSet c (key w) v)).filter p).getLast? = some v := by
  induction c with
  | nil => simp [collValues] at hlast
  | cons q rest ih =>
      rcases List.nodup_cons.mp hwf with ⟨hq, hwfr⟩
      have hq' : q.1 ∉ collKeys rest := hq
      have hkq := hkeyed q (List.mem_cons_self _ _)
      have hkeyedr : collKeyed key rest := fun x hx =>
        hkeyed x (List.mem_cons_of_mem _ hx)
      rw [collValues_cons] at hlast
      cases hpq : p q.2 with
      | true =>
          rw [List.filter_cons_of_pos hpq] at hlast
          cases hfl : ((collValues rest).filter p) with
          | nil =>
              rw [hfl] at hlast
              have hwq : w = q.2 := by
                have : ([q.2].getLast? : Option α) = some q.2 := rfl
                rw [this] at hlast
                injection hlast with h1
                rw [h1]
              have hkey : q.1 = key w := by rw [hwq, hkq]
              rw [collSet_cons_pos v hkey, collValues_cons,
                List.filter_cons_of_pos hv, hfl]
              rfl
          | cons y ys =>
              rw [hfl, List.getLast?_cons_cons] at hlast
              have hwmem : w ∈ (collValues rest).filter p := by
                rw [hfl]
                exact mem_of_getLast?_eq_some hlast
              have hwv : w ∈ collValues rest := (List.mem_filter.mp hwmem).1
              have hentry : (key w, w) ∈ rest := entry_of_values_mem hkeyedr hwv
              have hne : q.1 ≠ key w := by
                intro he
                exact hq' (by rw [he]; exact mem_keys_of_entry hentry)
              rw [collSet_cons_neg v hne, collValues_cons,
                List.filter_cons_of_pos hpq]
              have hrec := ih hwfr hkeyedr (by rw [hfl]; exact hlast)
              exact getLast?_cons_of_some _ hrec
      | false =>
          rw [List.filter_cons_of_neg (by simp [hpq])] at hlast
          have hwmem : w ∈ (collValues rest).filter p :=
            mem_of_getLast?_eq_some hlast
          have hwv : w ∈ collValues rest := (List.mem_filter.mp hwmem).1
          have hentry : (key w, w) ∈ rest := entry_of_values_mem hkeyedr hwv
          have hne : q.1 ≠ key w := by
            intro he
            exact hq' (by rw [he]; exact mem_keys_of_entry hentry)
          rw [collSet_cons_neg v hne, collValues_cons,
            List.filter_cons_of_neg (by simp [hpq])]
          exact ih hwfr hkeyedr hlast

/-! ## C8: idempotent merge — medicamento side -/

theorem findByServerId_entry {meds : Coll Med} {i : Int} {e : Med}
    (hkeyed : collKeyed Med.uuid meds)
    (h : MedicamentoService.findByServerId meds i = some e) :
    (e.uuid, e) ∈ meds :=
  entry_of_values_mem hkeyed (findByServerId_spec h).1

theorem medAbsorbed_fix {uuidFor farmFor : Int → String} {t : Nat}
    {a : ApiMed} {c : Coll Med} (hwf : collWF c) (habs : medAbsorbed t a c) :
    MedicamentoService.mesclarStep uuidFor farmFor t c a = c := by
  obtain ⟨e, hfind, hmem, hdisj⟩ := habs
  by_cases hcond : a.ts > e.updatedAt ∧ e.syncStatus = .synced
  · rw [mesclarStep_some_pos hfind hcond]
    rcases hdisj with h1 | h1
    · rw [h1]
      exact collSet_of_mem hwf hmem
    · exact absurd hcond h1
  · exact mesclarStep_some_neg hfind hcond

theorem mesclarStep_invariants {uuidFor farmFor : Int → String} {t : Nat}
    {a : ApiMed} {c : Coll Med} (hwf : collWF c)
    (hkeyed : collKeyed Med.uuid c) :
    collWF (MedicamentoService.mesclarStep uuidFor farmFor t c a)
    ∧ collKeyed Med.uuid (MedicamentoService.mesclarStep uuidFor farmFor t c a)
    ∧ ∀ x ∈ collKeys (MedicamentoService.mesclarStep uuidFor farmFor t c a),
        x = uuidFor a.idmedicamento ∨ x ∈ collKeys c := by
  cases hfind : MedicamentoService.findByServerId c a.idmedicamento with
  | none =>
      rw [mesclarStep_none hfind]
      refine ⟨collWF_collSet _ _ hwf, collKeyed_collSet hkeyed rfl, ?_⟩
      intro x hx
      exact (mem_collKeys_collSet _ _ _ _).mp hx
  | some e =>
      by_cases hcond : a.ts > e.updatedAt ∧ e.syncStatus = .synced
      · rw [mesclarStep_some_pos hfind hcond]
        have hkey : e.uuid ∈ collKeys c :=
          mem_keys_of_entry (findByServerId_entry hkeyed hfind)
        refine ⟨collWF_collSet _ _ hwf, collKeyed_collSet hkeyed rfl, ?_⟩
        intro x hx
        rcases (mem_collKeys_collSet _ _ _ _).mp hx with h | h
        · exact Or.inr (h ▸ hkey)
        · exact Or.inr h
      · rw [mesclarStep_some_neg hfind hcond]
        exact ⟨hwf, hkeyed, fun x hx => Or.inr hx⟩

theorem mesclarStep_find_preserve {uuidFor farmFor : Int → String} {t : Nat}
    {a : ApiMed} {c : Coll Med} {j : Int} (hwf : collWF c)
    (hkeyed : collKeyed Med.uuid c)
    (hfreshA : uuidFor a.idmedicamento ∉ collKeys c)
    (hab : a.idmedicamento ≠ j) :
    MedicamentoService.findByServerId
        (MedicamentoService.mesclarStep uuidFor farmFor t c a) j
      = MedicamentoService.findByServerId c j := by
  cases hfind : MedicamentoService.findByServerId c a.idmedicamento with
  | none =>
      rw [mesclarStep_none hfind]
      rw [collSet_eq_append _ hfreshA]
      unfold MedicamentoService.findByServerId
      rw [collValues_append, List.find?_append]
      have hsingle : List.find? (fun m => decide (m.serverId = some j))
          (collValues [((uuidFor a.idmedicamento),
            MedicamentoService.novoMedLocal uuidFor farmFor t a)]) = none := by
        simp [collValues, MedicamentoService.novoMedLocal, hab]
      rw [hsingle, Option.or_none]
  | some e =>
      by_cases hcond : a.ts > e.updatedAt ∧ e.syncStatus = .synced
      · rw [mesclarStep_some_pos hfind hcond]
        have hmem := findByServerId_entry hkeyed hfind
        have hsid := (findByServerId_spec hfind).2
        unfold MedicamentoService.findByServerId
        exact find?_values_collSet_of_ne hwf hmem
          (by simp [hsid, hab]) (by simp [MedicamentoService.atualizadoMed, hsid, hab])
      · rw [mesclarStep_some_neg hfind hcond]

theorem medAbsorbed_preserve {uuidFor farmFor : Int → String} {t : Nat}
    {a b : ApiMed} {c : Coll Med} (hwf : collWF c)
    (hkeyed : collKeyed Med.uuid c)
    (hfreshA : uuidFor a.idmedicamento ∉ collKeys c)
    (hab : a.idmedicamento ≠ b.idmedicamento) (habs : medAbsorbed t b c) :
    medAbsorbed t b (MedicamentoService.mesclarStep uuidFor farmFor t c a) := by
  obtain ⟨e, hfind, hmem, hdisj⟩ := habs
  refine ⟨e, ?_, ?_, hdisj⟩
  · rw [mesclarStep_find_preserve hwf hkeyed hfreshA hab]
    exact hfind
  · cases hfind_a : MedicamentoService.findByServerId c a.idmedicamento with
    | none =>
        rw [mesclarStep_none hfind_a]
        apply mem_collSet_of_mem _ _ hmem
        intro he
        exact hfreshA (he ▸ mem_keys_of_entry hmem)
    | some e_a =>
        by_cases hcond : a.ts > e_a.updatedAt ∧ e_a.syncStatus = .synced
        · rw [mesclarStep_some_pos hfind_a hcond]
          apply mem_collSet_of_mem _ _ hmem
          have hsid := (findByServerId_spec hfind).2
          have hsid_a := (findByServerId_spec hfind_a).2
          have hne : e ≠ e_a := by
            intro he
            rw [he, hsid_a] at hsid
            injection hsid with h1
            exact hab h1
          exact key_ne_of_entries hwf hmem (findByServerId_entry hkeyed hfind_a) hne
        · rw [mesclarStep_some_neg hfind_a hcond]
          exact hmem

theorem medAbsorbed_establish {uuidFor farmFor : Int → String} {t : Nat}
    {a : ApiMed} {c : Coll Med} (hwf : collWF c)
    (hkeyed : collKeyed Med.uuid c)
    (hfreshA : uuidFor a.idmedicamento ∉ collKeys c) :
    medAbsorbed t a (MedicamentoService.mesclarStep uuidFor farmFor t c a) := by
  cases hfind : MedicamentoService.findByServerId c a.idmedicamento with
  | none =>
      rw [mesclarStep_none hfind]
      rw [collSet_eq_append _ hfreshA]
      refine ⟨MedicamentoService.novoMedLocal uuidFor farmFor t a, ?_, ?_, Or.inl rfl⟩
      · unfold MedicamentoService.findByServerId at hfind ⊢
        rw [collValues_append, List.find?_append, hfind]
        simp [collValues, MedicamentoService.novoMedLocal]
      · exact List.mem_append_right _ (by simp [MedicamentoService.novoMedLocal])
  | some e =>
      by_cases hcond : a.ts > e.updatedAt ∧ e.syncStatus = .synced
      · rw [mesclarStep_some_pos hfind hcond]
        have hsid := (findByServerId_spec hfind).2
        refine ⟨MedicamentoService.atualizadoMed a t e, ?_, ?_, Or.inl rfl⟩
        · unfold MedicamentoService.findByServerId at hfind ⊢
          exact find?_values_collSet_found hwf hkeyed hfind
            (by simp [MedicamentoService.atualizadoMed, hsid])
        · exact mem_collSet_self _ _ _
      · rw [mesclarStep_some_neg hfind hcond]
        exact ⟨e, hfind, findByServerId_entry hkeyed hfind, Or.inr hcond⟩

theorem med_pass_main (uuidFor farmFor : Int → String) (t : Nat) :
    ∀ (snap : List ApiMed) (c : Coll Med) (doneL : List ApiMed),
    collWF c → collKeyed Med.uuid c →
    snap.Pairwise (fun x y => x.idmedicamento ≠ y.idmedicamento) →
    snap.Pairwise (fun x y => uuidFor x.idmedicamento ≠ uuidFor y.idmedicamento) →
    (∀ a ∈ snap, uuidFor a.idmedicamento ∉ collKeys c) →
    (∀ b ∈ doneL, medAbsorbed t b c) →
    (∀ a ∈ snap, ∀ b ∈ doneL, a.idmedicamento ≠ b.idmedicamento) →
    collWF (MedicamentoService.mesclarDoServidor uuidFor farmFor t snap c)
    ∧ ∀ b ∈ doneL ++ snap,
        medAbsorbed t b (MedicamentoService.mesclarDoServidor uuidFor farmFor t snap c) := by
  intro snap
  induction snap with
  | nil =>
      intro c doneL hwf _ _ _ _ hdone _
      exact ⟨hwf, by simpa using hdone⟩
  | cons a rest ih =>
      intro c doneL hwf hkeyed hids huuids hfresh hdone hcross
      have hunfold : MedicamentoService.mesclarDoServidor uuidFor farmFor t (a :: rest) c
          = MedicamentoService.mesclarDoServidor uuidFor farmFor t rest
              (MedicamentoService.mesclarStep uuidFor farmFor t c a) := rfl
      rw [hunfold]
      have hfA : uuidFor a.idmedicamento ∉ collKeys c :=
        hfresh a (List.mem_cons_self _ _)
      obtain ⟨hwf', hkeyed', hkeys'⟩ :=
        @mesclarStep_invariants uuidFor farmFor t a c hwf hkeyed
      have hfresh' : ∀ x ∈ rest, uuidFor x.idmedicamento
          ∉ collKeys (MedicamentoService.mesclarStep uuidFor farmFor t c a) := by
        intro x hx hmem
        rcases hkeys' _ hmem with h | h
        · exact (List.pairwise_cons.mp huuids).1 x hx h.symm
        · exact hfresh x (List.mem_cons_of_mem _ hx) h
      have hdone' : ∀ b ∈ doneL ++ [a],
          medAbsorbed t b (MedicamentoService.mesclarStep uuidFor farmFor t c a) := by
        intro b hb
        rcases List.mem_append.mp hb with h | h
        · exact medAbsorbed_preserve hwf hkeyed hfA
            (hcross a (List.mem_cons_self _ _) b h) (hdone b h)
        · have hba : b = a := by simpa using h
          rw [hba]
          exact medAbsorbed_establish hwf hkeyed hfA
      have hcross' : ∀ x ∈ rest, ∀ b ∈ doneL ++ [a],
          x.idmedicamento ≠ b.idmedicamento := by
        intro x hx b hb
        rcases List.mem_append.mp hb with h | h
        · exact hcross x (List.mem_cons_of_mem _ hx) b h
        · have hba : b = a := by simpa using h
          rw [hba]
          exact fun he => (List.pairwise_cons.mp hids).1 x hx he.symm
      have hrec := ih (MedicamentoService.mesclarStep uuidFor farmFor t c a)
        (doneL ++ [a]) hwf' hkeyed' (List.pairwise_cons.mp hids).2
        (List.pairwise_cons.mp huuids).2 hfresh' hdone' hcross'
      refine ⟨hrec.1, ?_⟩
      intro b hb
      apply hrec.2
      simp only [List.mem_append, List.mem_cons] at hb ⊢
      tauto

theorem med_merge_idempotent (meds : Coll Med) (snapshot : List ApiMed)
    (uuidFor farmFor : Int → String) (t : Nat)
    (hwf : collWF meds) (hkeyed : collKeyed Med.uuid meds)
    (hids : snapshot.Pairwise (fun x y => x.idmedicamento ≠ y.idmedicamento))
    (huuids : snapshot.Pairwise
      (fun x y => uuidFor x.idmedicamento ≠ uuidFor y.idmedicamento))
    (hfresh : ∀ a ∈ snapshot, uuidFor a.idmedicamento ∉ collKeys meds) :
    MedicamentoService.mesclarDoServidor uuidFor farmFor t snapshot
        (MedicamentoService.mesclarDoServidor uuidFor farmFor t snapshot meds)
      = MedicamentoService.mesclarDoServidor uuidFor farmFor t snapshot meds := by
  have hmain := med_pass_main uuidFor farmFor t snapshot meds [] hwf hkeyed
    hids huuids hfresh (by simp) (by simp)
  have hfix : ∀ a ∈ snapshot,
      MedicamentoService.mesclarStep uuidFor farmFor t
        (MedicamentoService.mesclarDoServidor uuidFor farmFor t snapshot meds) a
      = MedicamentoService.mesclarDoServidor uuidFor farmFor t snapshot meds := by
    intro a ha
    exact medAbsorbed_fix hmain.1 (hmain.2 a (by simpa using ha))
  exact foldl_fixed hfix

/-! ## C8: idempotent merge — FAQ side -/

theorem mapAtuais_eq (faqs : Coll Faq) (i : Int) :
    FaqService.mapAtuais faqs i
      = ((collValues faqs).filter (faqSel i)).getLast? := by
  unfold FaqService.mapAtuais FaqService.carregarFaqs
  rw [reverse_find?_eq_getLast?_filter, List.filter_filter]
  congr 1
  apply List.filter_congr
  intro f _
  unfold faqSel
  cases f.deletedLocally <;> simp

theorem mapAtuais_spec {faqs : Coll Faq} {i : Int} {e : Faq}
    (h : FaqService.mapAtuais faqs i = some e) :
    e ∈ collValues faqs ∧ e.serverId = some i ∧ e.deletedLocally = false := by
  rw [mapAtuais_eq] at h
  have hmem := mem_of_getLast?_eq_some h
  rcases List.mem_filter.mp hmem with ⟨hv, hsel⟩
  unfold faqSel at hsel
  rcases Bool.and_eq_true_iff.mp hsel with ⟨h1, h2⟩
  refine ⟨hv, of_decide_eq_true h1, ?_⟩
  cases hd : e.deletedLocally
  · rfl
  · rw [hd] at h2; simp at h2

theorem faqUpd_uuid (uuidFor farmFor : Int → String) (t : Nat) (c0 : Coll Faq)
    (a : ApiFaq) :
    (FaqService.faqUpd uuidFor farmFor t c0 a).uuid
      = (match FaqService.mapAtuais c0 a.idfaq with
         | some e => e.uuid
         | none => uuidFor a.idfaq) := by
  unfold FaqService.faqUpd faqApiToLocal
  cases FaqService.mapAtuais c0 a.idfaq <;> rfl

theorem faqUpd_sel (uuidFor farmFor : Int → String) (t : Nat) (c0 : Coll Faq)
    (a : ApiFaq) :
    faqSel a.idfaq (FaqService.faqUpd uuidFor farmFor t c0 a) = true := by
  unfold FaqService.faqUpd faqApiToLocal faqSel
  cases hm : FaqService.mapAtuais c0 a.idfaq with
  | none => simp
  | some e =>
      have hdel := (mapAtuais_spec hm).2.2
      simp [hdel]

theorem faqUpd_sel_ne {j : Int} (uuidFor farmFor : Int → String) (t : Nat)
    (c0 : Coll Faq) (a : ApiFaq) (hne : a.idfaq ≠ j) :
    faqSel j (FaqService.faqUpd uuidFor farmFor t c0 a) = false := by
  unfold FaqService.faqUpd faqApiToLocal faqSel
  cases FaqService.mapAtuais c0 a.idfaq <;> simp [hne]

theorem faqUpd_fixpoint (uuidFor farmFor : Int → String) (t : Nat)
    (c0 : Coll Faq) (a : ApiFaq) :
    faqApiToLocal (uuidFor a.idfaq) (farmFor a.idfaq) t a
        (some (FaqService.faqUpd uuidFor farmFor t c0 a))
      = FaqService.faqUpd uuidFor farmFor t c0 a := by
  unfold FaqService.faqUpd
  cases hm : FaqService.mapAtuais c0 a.idfaq with
  | none =>
      unfold faqApiToLocal
      by_cases hf : farmFor a.idfaq = "" <;> simp [hf]
  | some e =>
      unfold faqApiToLocal
      by_cases he : e.farmaceutico_uuid = "" <;>
        by_cases hf : farmFor a.idfaq = "" <;> simp [he, hf]

theorem faqKey_ne {uuidFor farmFor : Int → String} {t : Nat} {c0 : Coll Faq}
    {x y : ApiFaq} (hwf0 : collWF c0) (hkeyed0 : collKeyed Faq.uuid c0)
    (hfx : uuidFor x.idfaq ∉ collKeys c0) (hfy : uuidFor y.idfaq ∉ collKeys c0)
    (hid : x.idfaq ≠ y.idfaq) (huu : uuidFor x.idfaq ≠ uuidFor y.idfaq) :
    (FaqService.faqUpd uuidFor farmFor t c0 x).uuid
      ≠ (FaqService.faqUpd uuidFor farmFor t c0 y).uuid := by
  rw [faqUpd_uuid, faqUpd_uuid]
  cases hmx : FaqService.mapAtuais c0 x.idfaq with
  | none =>
      cases hmy : FaqService.mapAtuais c0 y.idfaq with
      | none => exact huu
      | some ey =>
          intro he
          have he' : uuidFor x.idfaq = ey.uuid := he
          apply hfx
          rw [he']
          exact mem_keys_of_entry (entry_of_values_mem hkeyed0 (mapAtuais_spec hmy).1)
  | some ex =>
      cases hmy : FaqService.mapAtuais c0 y.idfaq with
      | none =>
          intro he
          have he' : ex.uuid = uuidFor y.idfaq := he
          apply hfy
          rw [← he']
          exact mem_keys_of_entry (entry_of_values_mem hkeyed0 (mapAtuais_spec hmx).1)
      | some ey =>
          have hex := mapAtuais_spec hmx
          have hey := mapAtuais_spec hmy
          have hne : ex ≠ ey := by
            intro he
            rw [he, hey.2.1] at hex
            have := hex.2.1
            injection this with h1
            exact hid h1.symm
          exact key_ne_of_entries hwf0 (entry_of_values_mem hkeyed0 hex.1)
            (entry_of_values_mem hkeyed0 hey.1) hne

theorem faq_write_map_preserve {uuidFor farmFor : Int → String} {t : Nat}
    {c0 c : Coll Faq} {a : ApiFaq} {j : Int} (hwf : collWF c)
    (hpa : faqPending uuidFor a c0 c) (haj : a.idfaq ≠ j) :
    FaqService.mapAtuais
        (collSet c (FaqService.faqUpd uuidFor farmFor t c0 a).uuid
          (FaqService.faqUpd uuidFor farmFor t c0 a)) j
      = FaqService.mapAtuais c j := by
  obtain ⟨hmap, hloc⟩ := hpa
  rw [mapAtuais_eq, mapAtuais_eq]
  cases hm : FaqService.mapAtuais c0 a.idfaq with
  | some e =>
      have hloc' : collGet c e.uuid = some e := by rw [hm] at hloc; exact hloc
      have hku : (FaqService.faqUpd uuidFor farmFor t c0 a).uuid = e.uuid := by
        rw [faqUpd_uuid, hm]
      rw [hku]
      have hmem : (e.uuid, e) ∈ c := collGet_mem hloc'
      rw [filter_values_collSet_of_ne hwf hmem
        (by simp [faqSel, (mapAtuais_spec hm).2.1, haj])
        (faqUpd_sel_ne uuidFor farmFor t c0 a haj)]
  | none =>
      have hloc' : uuidFor a.idfaq ∉ collKeys c := by rw [hm] at hloc; exact hloc
      have hku : (FaqService.faqUpd uuidFor farmFor t c0 a).uuid
          = uuidFor a.idfaq := by
        rw [faqUpd_uuid, hm]
      rw [hku, collSet_eq_append _ hloc', collValues_append, List.filter_append]
      have hnil : (collValues [(uuidFor a.idfaq,
          FaqService.faqUpd uuidFor farmFor t c0 a)]).filter (faqSel j) = [] := by
        simp [collValues, List.filter, faqUpd_sel_ne uuidFor farmFor t c0 a haj]
      rw [hnil, List.append_nil]

theorem faqDone_establish {uuidFor farmFor : Int → String} {t : Nat}
    {c0 c : Coll Faq} {a : ApiFaq} (hwf : collWF c)
    (hkeyed : collKeyed Faq.uuid c) (hpa : faqPending uuidFor a c0 c) :
    faqDone uuidFor farmFor t a c0
      (collSet c (FaqService.faqUpd uuidFor farmFor t c0 a).uuid
        (FaqService.faqUpd uuidFor farmFor t c0 a)) := by
  obtain ⟨hmap, hloc⟩ := hpa
  refine ⟨?_, collGet_collSet_self _ _ _⟩
  rw [mapAtuais_eq]
  cases hm : FaqService.mapAtuais c0 a.idfaq with
  | some e =>
      have hloc' : collGet c e.uuid = some e := by rw [hm] at hloc; exact hloc
      have hku : (FaqService.faqUpd uuidFor farmFor t c0 a).uuid = e.uuid := by
        rw [faqUpd_uuid, hm]
      have hlast : ((collValues c).filter (faqSel a.idfaq)).getLast? = some e := by
        rw [← mapAtuais_eq, hmap, hm]
      rw [hku]
      exact getLast?_filter_collSet_found hwf hkeyed hlast
        (faqUpd_sel uuidFor farmFor t c0 a)
  | none =>
      have hloc' : uuidFor a.idfaq ∉ collKeys c := by rw [hm] at hloc; exact hloc
      have hku : (FaqService.faqUpd uuidFor farmFor t c0 a).uuid
          = uuidFor a.idfaq := by
        rw [faqUpd_uuid, hm]
      rw [hku, collSet_eq_append _ hloc', collValues_append, List.filter_append]
      have hone : (collValues [(uuidFor a.idfaq,
          FaqService.faqUpd uuidFor farmFor t c0 a)]).filter (faqSel a.idfaq)
          = [FaqService.faqUpd uuidFor farmFor t c0 a] := by
        simp [collValues, List.filter, faqUpd_sel uuidFor farmFor t c0 a]
      rw [hone]
      exact List.getLast?_concat _

theorem faqPending_preserve {uuidFor farmFor : Int → String} {t : Nat}
    {c0 c : Coll Faq} {a b : ApiFaq} (hwf : collWF c)
    (hpa : faqPending uuidFor a c0 c) (hpb : faqPending uuidFor b c0 c)
    (hab : a.idfaq ≠ b.idfaq)
    (hKab : (FaqService.faqUpd uuidFor farmFor t c0 a).uuid
      ≠ (FaqService.faqUpd uuidFor farmFor t c0 b).uuid) :
    faqPending uuidFor b c0
      (collSet c (FaqService.faqUpd uuidFor farmFor t c0 a).uuid
        (FaqService.faqUpd uuidFor farmFor t c0 a)) := by
  obtain ⟨hmapb, hlocb⟩ := hpb
  refine ⟨?_, ?_⟩
  · rw [faq_write_map_preserve hwf hpa hab]
    exact hmapb
  · cases hm : FaqService.mapAtuais c0 b.idfaq with
    | some eb =>
        have hlocb' : collGet c eb.uuid = some eb := by rw [hm] at hlocb; exact hlocb
        have hKb : (FaqService.faqUpd uuidFor farmFor t c0 b).uuid = eb.uuid := by
          rw [faqUpd_uuid, hm]
        show collGet _ eb.uuid = some eb
        rw [collGet_collSet_ne _ _ (hKb ▸ hKab)]
        exact hlocb'
    | none =>
        have hlocb' : uuidFor b.idfaq ∉ collKeys c := by rw [hm] at hlocb; exact hlocb
        have hKb : (FaqService.faqUpd uuidFor farmFor t c0 b).uuid
            = uuidFor b.idfaq := by
          rw [faqUpd_uuid, hm]
        show uuidFor b.idfaq ∉ collKeys _
        intro hmem
        rcases (mem_collKeys_collSet _ _ _ _).mp hmem with h | h
        · exact (hKb ▸ hKab) h.symm
        · exact hlocb' h

theorem faqDone_preserve {uuidFor farmFor : Int → String} {t : Nat}
    {c0 c : Coll Faq} {a b : ApiFaq} (hwf : collWF c)
    (hpa : faqPending uuidFor a c0 c)
    (hdb : faqDone uuidFor farmFor t b c0 c) (hab : a.idfaq ≠ b.idfaq)
    (hKab : (FaqService.faqUpd uuidFor farmFor t c0 a).uuid
      ≠ (FaqService.faqUpd uuidFor farmFor t c0 b).uuid) :
    faqDone uuidFor farmFor t b c0
      (collSet c (FaqService.faqUpd uuidFor farmFor t c0 a).uuid
        (FaqService.faqUpd uuidFor farmFor t c0 a)) := by
  obtain ⟨hmapb, hlocb⟩ := hdb
  refine ⟨?_, ?_⟩
  · rw [faq_write_map_preserve hwf hpa hab]
    exact hmapb
  · rw [collGet_collSet_ne _ _ hKab]
    exact hlocb

theorem faq_pass_main (uuidFor farmFor : Int → String) (t : Nat) (c0 : Coll Faq) :
    ∀ (snap : List ApiFaq) (c : Coll Faq) (doneL : List ApiFaq),
    collWF c → collKeyed Faq.uuid c →
    snap.Pairwise (fun x y => x.idfaq ≠ y.idfaq) →
    snap.Pairwise (fun x y => (FaqService.faqUpd uuidFor farmFor t c0 x).uuid
      ≠ (FaqService.faqUpd uuidFor farmFor t c0 y).uuid) →
    (∀ a ∈ snap, faqPending uuidFor a c0 c) →
    (∀ b ∈ doneL, faqDone uuidFor farmFor t b c0 c) →
    (∀ a ∈ snap, ∀ b ∈ doneL, a.idfaq ≠ b.idfaq) →
    (∀ a ∈ snap, ∀ b ∈ doneL, (FaqService.faqUpd uuidFor farmFor t c0 a).uuid
      ≠ (FaqService.faqUpd uuidFor farmFor t c0 b).uuid) →
    collWF (snap.foldl (fun acc x =>
        collSet acc (FaqService.faqUpd uuidFor farmFor t c0 x).uuid
          (FaqService.faqUpd uuidFor farmFor t c0 x)) c)
    ∧ ∀ b ∈ doneL ++ snap, faqDone uuidFor farmFor t b c0
        (snap.foldl (fun acc x =>
          collSet acc (FaqService.faqUpd uuidFor farmFor t c0 x).uuid
            (FaqService.faqUpd uuidFor farmFor t c0 x)) c) := by
  intro snap
  induction snap with
  | nil =>
      intro c doneL hwf _ _ _ _ hdone _ _
      exact ⟨hwf, by simpa using hdone⟩
  | cons a rest ih =>
      intro c doneL hwf hkeyed hids hkeys hpend hdone hcrossid hcrossK
      rw [List.foldl_cons]
      have hpa := hpend a (List.mem_cons_self _ _)
      have hwf' := collWF_collSet
        ((FaqService.faqUpd uuidFor farmFor t c0 a).uuid)
        (FaqService.faqUpd uuidFor farmFor t c0 a) hwf
      have hkeyed' : collKeyed Faq.uuid
          (collSet c (FaqService.faqUpd uuidFor farmFor t c0 a).uuid
            (FaqService.faqUpd uuidFor farmFor t c0 a)) :=
        collKeyed_collSet hkeyed rfl
      have hpend' : ∀ x ∈ rest, faqPending uuidFor x c0
          (collSet c (FaqService.faqUpd uuidFor farmFor t c0 a).uuid
            (FaqService.faqUpd uuidFor farmFor t c0 a)) := by
        intro x hx
        exact faqPending_preserve hwf hpa (hpend x (List.mem_cons_of_mem _ hx))
          ((List.pairwise_cons.mp hids).1 x hx)
          ((List.pairwise_cons.mp hkeys).1 x hx)
      have hdone' : ∀ b ∈ doneL ++ [a], faqDone uuidFor farmFor t b c0
          (collSet c (FaqService.faqUpd uuidFor farmFor t c0 a).uuid
            (FaqService.faqUpd uuidFor farmFor t c0 a)) := by
        intro b hb
        rcases List.mem_append.mp hb with h | h
        · exact faqDone_preserve hwf hpa (hdone b h)
            (hcrossid a (List.mem_cons_self _ _) b h)
            (hcrossK a (List.mem_cons_self _ _) b h)
        · have hba : b = a := by simpa using h
          rw [hba]
          exact faqDone_establish hwf hkeyed hpa
      have hcrossid' : ∀ x ∈ rest, ∀ b ∈ doneL ++ [a], x.idfaq ≠ b.idfaq := by
        intro x hx b hb
        rcases List.mem_append.mp hb with h | h
        · exact hcrossid x (List.mem_cons_of_mem _ hx) b h
        · have hba : b = a := by simpa using h
          rw [hba]
          exact fun he => (List.pairwise_cons.mp hids).1 x hx he.symm
      have hcrossK' : ∀ x ∈ rest, ∀ b ∈ doneL ++ [a],
          (FaqService.faqUpd uuidFor farmFor t c0 x).uuid
            ≠ (FaqService.faqUpd uuidFor farmFor t c0 b).uuid := by
        intro x hx b hb
        rcases List.mem_append.mp hb with h | h
        · exact hcrossK x (List.mem_cons_of_mem _ hx) b h
        · have hba : b = a := by simpa using h
          rw [hba]
          exact fun he => (List.pairwise_cons.mp hkeys).1 x hx he.symm
      have hrec := ih (collSet c (FaqService.faqUpd uuidFor farmFor t c0 a).uuid
          (FaqService.faqUpd uuidFor farmFor t c0 a)) (doneL ++ [a])
        hwf' hkeyed' (List.pairwise_cons.mp hids).2 (List.pairwise_cons.mp hkeys).2
        hpend' hdone' hcrossid' hcrossK'
      refine ⟨hrec.1, ?_⟩
      intro b hb
      apply hrec.2
      simp only [List.mem_append, List.mem_cons] at hb ⊢
      tauto

theorem mesclarFaq_eq_foldl (uuidFor farmFor : Int → String) (t : Nat)
    (snap : List ApiFaq) (faqs : Coll Faq) :
    FaqService.mesclarDoServidor uuidFor farmFor t snap faqs
      = snap.foldl (fun acc x =>
          collSet acc (FaqService.faqUpd uuidFor farmFor t faqs x).uuid
            (FaqService.faqUpd uuidFor farmFor t faqs x)) faqs := rfl

theorem faq_merge_idempotent (faqs : Coll Faq) (snapshot : List ApiFaq)
    (uuidFor farmFor : Int → String) (t : Nat)
    (hwf : collWF faqs) (hkeyed : collKeyed Faq.uuid faqs)
    (hids : snapshot.Pairwise (fun x y => x.idfaq ≠ y.idfaq))
    (huuids : snapshot.Pairwise (fun x y => uuidFor x.idfaq ≠ uuidFor y.idfaq))
    (hfresh : ∀ a ∈ snapshot, uuidFor a.idfaq ∉ collKeys faqs) :
    FaqService.mesclarDoServidor uuidFor farmFor t snapshot
        (FaqService.mesclarDoServidor uuidFor farmFor t snapshot faqs)
      = FaqService.mesclarDoServidor uuidFor farmFor t snapshot faqs := by
  have hkeys : snapshot.Pairwise (fun x y =>
      (FaqService.faqUpd uuidFor farmFor t faqs x).uuid
        ≠ (FaqService.faqUpd uuidFor farmFor t faqs y).uuid) := by
    refine (hids.and huuids).imp_of_mem ?_
    intro x y hx hy hxy
    exact faqKey_ne hwf hkeyed (hfresh x hx) (hfresh y hy) hxy.1 hxy.2
  have hpend0 : ∀ a ∈ snapshot, faqPending uuidFor a faqs faqs := by
    intro a ha
    refine ⟨rfl, ?_⟩
    cases hm : FaqService.mapAtuais faqs a.idfaq with
    | some e =>
        exact mem_collGet hwf (entry_of_values_mem hkeyed (mapAtuais_spec hm).1)
    | none => exact hfresh a ha
  have hmain := faq_pass_main uuidFor farmFor t faqs snapshot faqs []
    hwf hkeyed hids hkeys hpend0 (by simp) (by simp) (by simp)
  rw [mesclarFaq_eq_foldl uuidFor farmFor t snapshot
    (FaqService.mesclarDoServidor uuidFor farmFor t snapshot faqs)]
  apply foldl_fixed
  intro a ha
  have hdone := hmain.2 a (by simpa using ha)
  obtain ⟨hmapd, hlocd⟩ := hdone
  have hupd : FaqService.faqUpd uuidFor farmFor t
      (FaqService.mesclarDoServidor uuidFor farmFor t snapshot faqs) a
      = FaqService.faqUpd uuidFor farmFor t faqs a := by
    show faqApiToLocal (uuidFor a.idfaq) (farmFor a.idfaq) t a
        (FaqService.mapAtuais
          (FaqService.mesclarDoServidor uuidFor farmFor t snapshot faqs) a.idfaq)
      = _
    rw [show FaqService.mapAtuais
        (FaqService.mesclarDoServidor uuidFor farmFor t snapshot faqs) a.idfaq
        = some (FaqService.faqUpd uuidFor farmFor t faqs a) from hmapd]
    exact faqUpd_fixpoint uuidFor farmFor t faqs a
  rw [hupd]
  exact collSet_of_mem hmain.1 (collGet_mem hlocd)

/-- C8: idempotent merge — for both MedicamentoService.mesclarDoServidor and
FaqService.mesclarDoServidor, applying the merge twice in a row with the same
remote snapshot yields the same local collection as applying it once
(assuming well-formed stored collections, remote snapshots without duplicate
server ids, and generateUUID producing distinct fresh uuids that do not
collide with stored keys), so no duplicate local record is materialized for a
serverId on the second application. -/
theorem C8_merge_idempotent
    (meds : Coll Med) (faqs : Coll Faq)
    (msnap : List ApiMed) (fsnap : List ApiFaq)
    (uuidForM farmForM uuidForF farmForF : Int → String) (t : Nat)
    (hwfM : collWF meds) (hkeyedM : collKeyed Med.uuid meds)
    (hidsM : msnap.Pairwise (fun x y => x.idmedicamento ≠ y.idmedicamento))
    (huuidsM : msnap.Pairwise
      (fun x y => uuidForM x.idmedicamento ≠ uuidForM y.idmedicamento))
    (hfreshM : ∀ a ∈ msnap, uuidForM a.idmedicamento ∉ collKeys meds)
    (hwfF : collWF faqs) (hkeyedF : collKeyed Faq.uuid faqs)
    (hidsF : fsnap.Pairwise (fun x y => x.idfaq ≠ y.idfaq))
    (huuidsF : fsnap.Pairwise (fun x y => uuidForF x.idfaq ≠ uuidForF y.idfaq))
    (hfreshF : ∀ a ∈ fsnap, uuidForF a.idfaq ∉ collKeys faqs) :
    MedicamentoService.mesclarDoServidor uuidForM farmForM t msnap
        (MedicamentoService.mesclarDoServidor uuidForM farmForM t msnap meds)
      = MedicamentoService.mesclarDoServidor uuidForM farmForM t msnap meds
    ∧ FaqService.mesclarDoServidor uuidForF farmForF t fsnap
        (FaqService.mesclarDoServidor uuidForF farmForF t fsnap faqs)
      = FaqService.mesclarDoServidor uuidForF farmForF t fsnap faqs :=
  ⟨med_merge_idempotent meds msnap uuidForM farmForM t hwfM hkeyedM
      hidsM huuidsM hfreshM,
   faq_merge_idempotent faqs fsnap uuidForF farmForF t hwfF hkeyedF
      hidsF huuidsF hfreshF⟩

/-- Witness for C8: idempotence of the concrete merges of a one-item remote
medicamento snapshot into a one-record pending collection, and of a one-item
remote FAQ snapshot into the empty collection. -/
theorem C8_witness :
    collWF [("med-uuid-1", dipirona)]
    ∧ collKeyed Med.uuid [("med-uuid-1", dipirona)]
    ∧ List.Pairwise (fun x y => x.idmedicamento ≠ y.idmedicamento) [apiMed7]
    ∧ List.Pairwise (fun x y => (fun _ : Int => "fresh-m7") x.idmedicamento
        ≠ (fun _ : Int => "fresh-m7") y.idmedicamento) [apiMed7]
    ∧ (∀ a ∈ [apiMed7], (fun _ : Int => "fresh-m7") a.idmedicamento
        ∉ collKeys [("med-uuid-1", dipirona)])
    ∧ collWF ([] : Coll Faq)
    ∧ collKeyed Faq.uuid ([] : Coll Faq)
    ∧ List.Pairwise (fun x y => x.idfaq ≠ y.idfaq) [apiFaq5]
    ∧ List.Pairwise (fun x y => (fun _ : Int => "fresh-f5") x.idfaq
        ≠ (fun _ : Int => "fresh-f5") y.idfaq) [apiFaq5]
    ∧ (∀ a ∈ [apiFaq5], (fun _ : Int => "fresh-f5") a.idfaq
        ∉ collKeys ([] : Coll Faq))
    ∧ (MedicamentoService.mesclarDoServidor (fun _ => "fresh-m7")
          (fun _ => "farm-m7") 60 [apiMed7]
          (MedicamentoService.mesclarDoServidor (fun _ => "fresh-m7")
            (fun _ => "farm-m7") 60 [apiMed7] [("med-uuid-1", dipirona)])
        = MedicamentoService.mesclarDoServidor (fun _ => "fresh-m7")
            (fun _ => "farm-m7") 60 [apiMed7] [("med-uuid-1", dipirona)]
      ∧ FaqService.mesclarDoServidor (fun _ => "fresh-f5")
          (fun _ => "farm-f5") 60 [apiFaq5]
          (FaqService.mesclarDoServidor (fun _ => "fresh-f5")
            (fun _ => "farm-f5") 60 [apiFaq5] [])
        = FaqService.mesclarDoServidor (fun _ => "fresh-f5")
            (fun _ => "farm-f5") 60 [apiFaq5] []) :=
  ⟨by decide, by decide, by decide, by decide, by decide,
   by decide, by decide, by decide, by decide, by decide,
   C8_merge_idempotent [("med-uuid-1", dipirona)] [] [apiMed7] [apiFaq5]
     (fun _ => "fresh-m7") (fun _ => "farm-m7")
     (fun _ => "fresh-f5") (fun _ => "farm-f5") 60
     (by decide) (by decide) (by decide) (by decide) (by decide)
     (by decide) (by decide) (by decide) (by decide) (by decide)⟩

end Dinda
